import Mathlib

set_option maxRecDepth 8000
set_option maxHeartbeats 1000000

namespace Cursor2

/-! Shallow embedding of the orchestration core of cursor2.0-terminal
(src/index.ts).  Pure string manipulation (path handling, reply cleaning,
JSON parsing, free-text field extraction) is embedded directly; the
stateful driver loop becomes explicit state passing over a step relation;
the generative backend, the file system and the interactive prompt are
external collaborators and enter as explicit oracle inputs. -/

/-! ### String helpers (JavaScript primitives used by the source) -/

/-- The apostrophe character (used in the extraction regular expressions and
in backend content strings). -/
def aposC : Char := Char.ofNat 39

/-- The apostrophe as a one-character string. -/
def apos : String := String.singleton aposC

/-- Model of the JavaScript replace of every backslash by a forward slash
(the two occurrences of `.replace(/\\/g, "/")` inside normalizePath). -/
def replaceBackslashes (s : String) : String :=
  String.mk (s.data.map (fun c => if c = '\\' then '/' else c))

/-- Worker for splitOnCharJS: accumulates the current segment in reverse. -/
def splitCharsAux (sep : Char) : List Char → List Char → List String
  | [], acc => [String.mk acc.reverse]
  | c :: cs, acc =>
    if c = sep then String.mk acc.reverse :: splitCharsAux sep cs []
    else splitCharsAux sep cs (c :: acc)

/-- Model of JavaScript String.prototype.split with a one-character
separator: empty input yields one empty segment, adjacent separators yield
empty segments. -/
def splitOnCharJS (sep : Char) (s : String) : List String :=
  splitCharsAux sep s.data []

/-- Joining a list of segments with a slash (the join performed by the
node path module when it rebuilds a path from its segments). -/
def joinSlash : List String → String
  | [] => ""
  | [s] => s
  | s :: rest => s ++ "/" ++ joinSlash rest

/-! ### Node path module (posix behaviour), as used by normalizePath -/

/-- One step of the node path-normalization stack: skip empty and "."
segments, resolve ".." against the accumulated stack (which is kept in
reverse order: the head is the most recently accepted segment).  At the
root of an absolute path a ".." is dropped; in a relative path leading
".." segments accumulate. -/
def normSegsStep (isAbs : Bool) (acc : List String) (seg : String) : List String :=
  if seg = "" ∨ seg = "." then acc
  else if seg = ".." then
    match acc with
    | [] => if isAbs then [] else [".."]
    | a :: rest => if a = ".." then seg :: a :: rest else rest
  else seg :: acc

/-- Normalize a list of path segments the way node path.normalize does. -/
def normalizeSegs (isAbs : Bool) (segs : List String) : List String :=
  (segs.foldl (normSegsStep isAbs) []).reverse

/-- Model of node path.normalize (posix).  A trailing slash of the input is
not reproduced; normalizePath immediately re-splits the result on "/" and
drops empty segments, so this difference is unobservable there. -/
def jsNormalize (p : String) : String :=
  let isAbs := p.data.head? = some '/'
  let out := normalizeSegs isAbs (splitOnCharJS '/' p)
  if isAbs then "/" ++ joinSlash out
  else if out = [] then "." else joinSlash out

/-- The configured project root directory name (ROOT_DIR in src/index.ts). -/
def ROOT_DIR : String := "chaicode"

/-- Model of node path.join: drop empty arguments, join with "/", normalize;
with no non-empty argument the result is ".". -/
def jsJoin (segs : List String) : String :=
  let joined := joinSlash (segs.filter (fun s => s ≠ ""))
  if joined = "" then "." else jsNormalize joined

/-- Shallow embedding of normalizePath from src/index.ts: normalize the
input, replace backslashes by slashes, split into non-empty segments, and
if the root name "chaicode" occurs at a non-zero index drop everything
before that occurrence; finally join back under ROOT_DIR (the JS
`indexOf !== -1` test becomes an index-below-length test, since
List.indexOf returns the length when the element is absent). -/
def normalizePath (filePath : String) : String :=
  let normalized := replaceBackslashes (jsNormalize filePath)
  let parts := (splitOnCharJS '/' normalized).filter (fun part => part ≠ "")
  let chaicodeIndex := parts.indexOf "chaicode"
  let parts2 :=
    if chaicodeIndex < parts.length ∧ chaicodeIndex ≠ 0 then parts.drop chaicodeIndex
    else parts
  replaceBackslashes (jsJoin (ROOT_DIR :: parts2))

/-! ### Lemmas about the path model -/

/-! ### Lemmas about segment normalization -/

/-- The segments the driver actually cares about when it rebuilds a path:
non-empty and not the current-directory marker. -/
def keepSeg (s : String) : Bool := ¬(s = "" ∨ s = ".")

/-! ### Lemmas about segsAll: splitting after backslash replacement -/

/-- All slash-or-backslash separated segments of a string: the segments of
the string after every backslash is replaced by a slash. -/
def segsAll (s : String) : List String :=
  splitOnCharJS '/' (replaceBackslashes s)

/-! ### The parts lists computed inside normalizePath -/

/-- The parts list computed inside normalizePath before the chaicode
splice. -/
def partsOf (p : String) : List String :=
  (segsAll (jsNormalize p)).filter (fun part => part ≠ "")

/-- The parts list of normalizePath after the chaicode splice. -/
def parts2Of (p : String) : List String :=
  if (partsOf p).indexOf "chaicode" < (partsOf p).length ∧
      (partsOf p).indexOf "chaicode" ≠ 0 then
    (partsOf p).drop ((partsOf p).indexOf "chaicode")
  else partsOf p

/-! ### More JavaScript string primitives -/

/-- JavaScript whitespace (the ASCII part of the \s class and of trim). -/
def isJsSpace (c : Char) : Bool :=
  c = ' ' ∨ c = '\t' ∨ c = '\n' ∨ c = '\r' ∨ c = '\x0b' ∨ c = '\x0c'

/-- Model of JavaScript String.prototype.trim (ASCII whitespace; the
source only ever trims ASCII backend text and console answers). -/
def jsTrim (s : String) : String :=
  String.mk (((s.data.dropWhile isJsSpace).reverse.dropWhile isJsSpace).reverse)

/-- Model of JavaScript String.prototype.toLowerCase, faithful on the
ASCII range used by the source. -/
def jsToLower (s : String) : String :=
  String.mk (s.data.map Char.toLower)

def isPrefixList : List Char → List Char → Bool
  | [], _ => true
  | _ :: _, [] => false
  | a :: as, b :: bs => a = b && isPrefixList as bs

def includesList (needle : List Char) : List Char → Bool
  | [] => isPrefixList needle []
  | c :: cs => isPrefixList needle (c :: cs) || includesList needle cs

/-- Model of JavaScript String.prototype.includes. -/
def includesS (hay needle : String) : Bool :=
  includesList needle.data hay.data

/-! ### A small regular-expression engine (JavaScript backtracking
semantics: leftmost match, greedy quantifiers, alternation tried left
first).  It is used to embed the regex literals of src/index.ts. -/

/-- Character-level regex atoms: a literal, the dot (anything but a
newline), a character class (possibly negated), the word class, the
whitespace class, and the combined word-or-whitespace class. -/
inductive RChar
  | lit (c : Char)
  | anyNotNl
  | cls (neg : Bool) (cs : List Char)
  | wordC
  | spaceC
  | wordSpaceC
deriving Repr, DecidableEq

def matchRC : RChar → Char → Bool
  | .lit c, d => d = c
  | .anyNotNl, d => ¬(d = '\n')
  | .cls neg cs, d => if neg then ¬(cs.contains d) else cs.contains d
  | .wordC, d => d.isAlphanum ∨ d = '_'
  | .spaceC, d => isJsSpace d
  | .wordSpaceC, d => d.isAlphanum ∨ d = '_' ∨ isJsSpace d

/-- Regular expressions over RChar, with capture groups and the multiline
anchors of the /m flag. -/
inductive Re
  | eps
  | ch (rc : RChar)
  | seq (a b : Re)
  | alt (a b : Re)
  | star (r : Re)
  | plus (r : Re)
  | opt (r : Re)
  | group (idx : Nat) (r : Re)
  | bol
  | eol
deriving Repr, DecidableEq

/-- Backtracking state: the character before the current position (for
anchors), the remaining input, the captures recorded so far. -/
structure MState where
  prev : Option Char
  rest : List Char
  caps : List (Nat × String)
deriving Repr, DecidableEq

/-- The full list of ways a regex can match a prefix of the remaining
input, in JavaScript preference order (head = the match the JS engine
picks).  Fuel bounds the recursion depth; star iterations must consume
input, as in the empty-loop check of the JS engine. -/
def matchFuel : Nat → Re → MState → List MState
  | 0, _, _ => []
  | Nat.succ fuel, re, st =>
    match re with
    | .eps => [st]
    | .ch rc =>
      match st.rest with
      | [] => []
      | c :: cs => if matchRC rc c then [⟨some c, cs, st.caps⟩] else []
    | .seq a b => (matchFuel fuel a st).flatMap (fun st2 => matchFuel fuel b st2)
    | .alt a b => matchFuel fuel a st ++ matchFuel fuel b st
    | .opt r => matchFuel fuel r st ++ [st]
    | .star r =>
      ((matchFuel fuel r st).flatMap (fun st2 =>
        if st2.rest.length < st.rest.length then matchFuel fuel (.star r) st2
        else [])) ++ [st]
    | .plus r => (matchFuel fuel r st).flatMap (fun st2 => matchFuel fuel (.star r) st2)
    | .group i r =>
      (matchFuel fuel r st).map (fun st2 =>
        ⟨st2.prev, st2.rest,
          (i, String.mk (st.rest.take (st.rest.length - st2.rest.length))) :: st2.caps⟩)
    | .bol => if st.prev = none ∨ st.prev = some '\n' then [st] else []
    | .eol => if st.rest = [] ∨ st.rest.head? = some '\n' then [st] else []

def reSize : Re → Nat
  | .eps => 1
  | .ch _ => 1
  | .seq a b => reSize a + reSize b + 1
  | .alt a b => reSize a + reSize b + 1
  | .star r => reSize r + 1
  | .plus r => reSize r + 2
  | .opt r => reSize r + 1
  | .group _ r => reSize r + 1
  | .bol => 1
  | .eol => 1

/-- Fuel that is ample for the depth of any backtracking path: nesting
depth times the number of progress-making star iterations. -/
def bigFuel (re : Re) (l : List Char) : Nat :=
  (reSize re + 2) * (l.length + 2) * 2

/-- The match the JS engine picks at the current position, if any. -/
def matchHere (re : Re) (prev : Option Char) (l : List Char) : Option MState :=
  (matchFuel (bigFuel re l) re ⟨prev, l, []⟩).head?

def jsMatchAux (re : Re) : Option Char → List Char → Nat → Option MState
  | _, _, 0 => none
  | prev, l, Nat.succ fuel =>
    match matchHere re prev l with
    | some st => some st
    | none =>
      match l with
      | [] => none
      | c :: cs => jsMatchAux re (some c) cs fuel

/-- Model of String.prototype.match with a non-global regex: try the
pattern at each position from the left, return the first match. -/
def jsMatch (re : Re) (s : String) : Option MState :=
  jsMatchAux re none s.data (s.data.length + 1)

/-- The value of capture group i (first recording wins; every group of the
patterns of the source is matched at most once). -/
def capGet (st : MState) (i : Nat) : Option String :=
  (st.caps.find? (fun pr => pr.1 = i)).map (fun pr => pr.2)

def replaceGlAux (re : Re) : Option Char → List Char → Nat → List Char
  | _, l, 0 => l
  | prev, l, Nat.succ fuel =>
    match matchHere re prev l with
    | some st =>
      if l.length - st.rest.length = 0 then
        match l with
        | [] => []
        | c :: cs => c :: replaceGlAux re (some c) cs fuel
      else replaceGlAux re st.prev st.rest fuel
    | none =>
      match l with
      | [] => []
      | c :: cs => c :: replaceGlAux re (some c) cs fuel

/-- Model of String.prototype.replace with a global regex and the empty
replacement string (the only replacement the source uses): delete every
match, advancing one character past empty matches. -/
def replaceGl (re : Re) (s : String) : String :=
  String.mk (replaceGlAux re none s.data (s.data.length + 1))

/-- A sequence of literal characters. -/
def reLits (s : String) : Re :=
  s.data.foldr (fun c r => Re.seq (.ch (.lit c)) r) .eps

def reSeq (l : List Re) : Re := l.foldr .seq .eps

/-! ### The regex literals of src/index.ts -/

/-- The first cleaning regex of runAgent and generateProjectStructure:
leading fenced-json marker or trailing fence, multiline. -/
def cleanRe1 : Re :=
  .alt (reSeq [.bol, reLits "```json", .star (.ch .spaceC)])
    (reSeq [.star (.ch .spaceC), reLits "```", .eol])

/-- The second cleaning regex: a whole fence-only line. -/
def cleanRe2 : Re := reSeq [.bol, reLits "```", .star (.ch .anyNotNl), .eol]

/-- The third cleaning regex of runAgent only: a newline and following
whitespace. -/
def cleanRe3 : Re := .seq (.ch (.lit '\n')) (.star (.ch .spaceC))

/-- The cleaning pipeline of runAgent applied to a backend reply. -/
def cleanResponse (s : String) : String :=
  jsTrim (replaceGl cleanRe3 (replaceGl cleanRe2 (replaceGl cleanRe1 s)))

/-- The cleaning pipeline inside generateProjectStructure (no newline
collapsing there). -/
def cleanStructureText (s : String) : String :=
  jsTrim (replaceGl cleanRe2 (replaceGl cleanRe1 s))

/-- The regex extracting the project type in the analyze step. -/
def typeRe : Re :=
  reSeq [reLits "identified as a", .opt (.ch (.lit 'n')), .ch (.lit ' '),
    .group 1 (.plus (.ch .wordSpaceC)), .ch (.lit '.')]

/-- The first regex extracting the project name in the analyze step. -/
def nameRe1 : Re :=
  reSeq [reLits "I", .ch (.lit aposC), reLits "ll name it ", .ch (.lit aposC),
    .group 1 (.plus (.ch (.cls true [aposC]))), .ch (.lit aposC)]

/-- The fallback regex extracting the project name in the analyze step. -/
def nameRe2 : Re :=
  reSeq [reLits "Found project ", .ch (.lit aposC),
    .group 1 (.plus (.ch (.cls true [aposC]))), .ch (.lit aposC)]

/-- The regex locating the file to update in the analyze step of an update
request. -/
def updRe : Re :=
  reSeq [reLits "Found project ", .ch (.lit aposC),
    .group 1 (.plus (.ch (.cls true [aposC]))), .ch (.lit aposC),
    reLits " in ", .ch (.lit aposC), .star (.ch .anyNotNl), .ch (.lit aposC),
    reLits " with a ", .group 2 (.plus (.ch (.cls true [aposC]))),
    .ch (.lit '.'), .group 3 (.plus (.ch .wordC))]

/-- Extraction of the project type from analyze content (line 506). -/
def extractedType (content : String) : Option String :=
  (jsMatch typeRe content).bind (fun st => capGet st 1)

/-- Extraction of the project name from analyze content (line 507: first
pattern wins, the second is the fallback of the JS disjunction). -/
def extractedName (content : String) : Option String :=
  match jsMatch nameRe1 content with
  | some st => capGet st 1
  | none => (jsMatch nameRe2 content).bind (fun st => capGet st 1)

/-- Extraction of the update file from analyze content in an update run
(lines 512-518): project, file base name and extension are reassembled as
project/file.ext. -/
def extractUpdateFile (content : String) : Option String :=
  match jsMatch updRe content with
  | some st =>
    match capGet st 1, capGet st 2, capGet st 3 with
    | some pn, some fn, some fe => some (pn ++ "/" ++ fn ++ "." ++ fe)
    | _, _, _ => none
  | none => none

/-! ### JSON values and JSON.parse / JSON.stringify -/

def lbraceC : Char := Char.ofNat 123

def rbraceC : Char := Char.ofNat 125

/-- JSON values.  Numbers keep their source lexeme: the driver never
computes with numbers, so the numeric value is irrelevant; stringification
of a non-canonical lexeme (such as 5.0) is not normalized as JS would. -/
inductive JsonVal
  | null
  | bool (b : Bool)
  | num (lexeme : String)
  | str (s : String)
  | arr (elems : List JsonVal)
  | obj (fields : List (String × JsonVal))
deriving Repr

def isJsonWs (c : Char) : Bool :=
  c = ' ' ∨ c = '\t' ∨ c = '\n' ∨ c = '\r'

def hexVal (c : Char) : Option Nat :=
  if '0' ≤ c ∧ c ≤ '9' then some (c.toNat - 48)
  else if 'a' ≤ c ∧ c ≤ 'f' then some (c.toNat - 87)
  else if 'A' ≤ c ∧ c ≤ 'F' then some (c.toNat - 55)
  else none

/-- Parse the body of a JSON string after the opening quote; returns the
decoded characters and the input after the closing quote. -/
def parseStringBody : Nat → List Char → Option (List Char × List Char)
  | 0, _ => none
  | Nat.succ fuel, l =>
    match l with
    | [] => none
    | c :: rest =>
      if c = '"' then some ([], rest)
      else if c = '\\' then
        match rest with
        | [] => none
        | e :: rest2 =>
          if e = '"' ∨ e = '\\' ∨ e = '/' then
            (parseStringBody fuel rest2).map (fun pr => (e :: pr.1, pr.2))
          else if e = 'n' then
            (parseStringBody fuel rest2).map (fun pr => ('\n' :: pr.1, pr.2))
          else if e = 't' then
            (parseStringBody fuel rest2).map (fun pr => ('\t' :: pr.1, pr.2))
          else if e = 'r' then
            (parseStringBody fuel rest2).map (fun pr => ('\r' :: pr.1, pr.2))
          else if e = 'b' then
            (parseStringBody fuel rest2).map (fun pr => ('\x08' :: pr.1, pr.2))
          else if e = 'f' then
            (parseStringBody fuel rest2).map (fun pr => ('\x0c' :: pr.1, pr.2))
          else if e = 'u' then
            match rest2 with
            | h1 :: h2 :: h3 :: h4 :: rest3 =>
              match hexVal h1, hexVal h2, hexVal h3, hexVal h4 with
              | some a, some b, some c2, some d =>
                (parseStringBody fuel rest3).map
                  (fun pr => (Char.ofNat (((a * 16 + b) * 16 + c2) * 16 + d) :: pr.1, pr.2))
              | _, _, _, _ => none
            | _ => none
          else none
      else if c.toNat < 32 then none
      else (parseStringBody fuel rest).map (fun pr => (c :: pr.1, pr.2))

def parseExpPart (lex : List Char) (l : List Char) : Option (List Char × List Char) :=
  match l with
  | [] => some (lex, l)
  | c :: r =>
    if c = 'e' ∨ c = 'E' then
      match r with
      | [] => none
      | d :: r2 =>
        if d = '+' ∨ d = '-' then
          let ed := r2.takeWhile Char.isDigit
          if ed.isEmpty then none
          else some (lex ++ c :: d :: ed, r2.dropWhile Char.isDigit)
        else
          let ed := r.takeWhile Char.isDigit
          if ed.isEmpty then none
          else some (lex ++ c :: ed, r.dropWhile Char.isDigit)
    else some (lex, l)

/-- Parse a JSON number lexeme (digit runs are not checked for leading
zeros; backend replies never exercise that corner of JSON.parse). -/
def parseNumber (l : List Char) : Option (List Char × List Char) :=
  let sign : List Char × List Char :=
    match l with
    | c :: r => if c = '-' then ([c], r) else ([], l)
    | [] => ([], l)
  let ip := sign.2.takeWhile Char.isDigit
  let l2 := sign.2.dropWhile Char.isDigit
  if ip.isEmpty then none
  else
    match l2 with
    | '.' :: r =>
      let fd := r.takeWhile Char.isDigit
      if fd.isEmpty then none
      else parseExpPart (sign.1 ++ ip ++ '.' :: fd) (r.dropWhile Char.isDigit)
    | _ => parseExpPart (sign.1 ++ ip) l2

mutual

/-- Parse one JSON value (model of the value grammar of JSON.parse). -/
def parseVal : Nat → List Char → Option (JsonVal × List Char)
  | 0, _ => none
  | Nat.succ fuel, l =>
    let l1 := l.dropWhile isJsonWs
    match l1 with
    | [] => none
    | c :: rest =>
      if c = '"' then
        (parseStringBody (rest.length + 1) rest).map
          (fun pr => (JsonVal.str (String.mk pr.1), pr.2))
      else if c = lbraceC then
        (parseObjMembers fuel rest).map (fun pr => (JsonVal.obj pr.1, pr.2))
      else if c = '[' then
        (parseArrElems fuel rest).map (fun pr => (JsonVal.arr pr.1, pr.2))
      else if c = 't' then
        match rest with
        | 'r' :: 'u' :: 'e' :: r => some (JsonVal.bool true, r)
        | _ => none
      else if c = 'f' then
        match rest with
        | 'a' :: 'l' :: 's' :: 'e' :: r => some (JsonVal.bool false, r)
        | _ => none
      else if c = 'n' then
        match rest with
        | 'u' :: 'l' :: 'l' :: r => some (JsonVal.null, r)
        | _ => none
      else
        (parseNumber l1).map (fun pr => (JsonVal.num (String.mk pr.1), pr.2))

/-- Parse array elements after the opening bracket. -/
def parseArrElems : Nat → List Char → Option (List JsonVal × List Char)
  | 0, _ => none
  | Nat.succ fuel, l =>
    let l1 := l.dropWhile isJsonWs
    match l1 with
    | ']' :: r => some ([], r)
    | _ =>
      (parseVal fuel l1).bind (fun pr =>
        (parseArrRest fuel pr.2).map (fun pr2 => (pr.1 :: pr2.1, pr2.2)))

/-- Parse the rest of an array after one element. -/
def parseArrRest : Nat → List Char → Option (List JsonVal × List Char)
  | 0, _ => none
  | Nat.succ fuel, l =>
    let l1 := l.dropWhile isJsonWs
    match l1 with
    | ']' :: r => some ([], r)
    | ',' :: r =>
      (parseVal fuel r).bind (fun pr =>
        (parseArrRest fuel pr.2).map (fun pr2 => (pr.1 :: pr2.1, pr2.2)))
    | _ => none

/-- Parse object members after the opening brace.  Duplicate keys are kept
in order; lookups below take the last occurrence, as JSON.parse does. -/
def parseObjMembers : Nat → List Char → Option (List (String × JsonVal) × List Char)
  | 0, _ => none
  | Nat.succ fuel, l =>
    let l1 := l.dropWhile isJsonWs
    match l1 with
    | c :: r =>
      if c = rbraceC then some ([], r)
      else if c = '"' then
        (parseStringBody (r.length + 1) r).bind (fun kpr =>
          match kpr.2.dropWhile isJsonWs with
          | ':' :: r2 =>
            (parseVal fuel r2).bind (fun vpr =>
              (parseObjRest fuel vpr.2).map
                (fun pr2 => ((String.mk kpr.1, vpr.1) :: pr2.1, pr2.2)))
          | _ => none)
      else none
    | [] => none

/-- Parse the rest of an object after one member. -/
def parseObjRest : Nat → List Char → Option (List (String × JsonVal) × List Char)
  | 0, _ => none
  | Nat.succ fuel, l =>
    let l1 := l.dropWhile isJsonWs
    match l1 with
    | c :: r =>
      if c = rbraceC then some ([], r)
      else if c = ',' then
        match r.dropWhile isJsonWs with
        | '"' :: r2 =>
          (parseStringBody (r2.length + 1) r2).bind (fun kpr =>
            match kpr.2.dropWhile isJsonWs with
            | ':' :: r3 =>
              (parseVal fuel r3).bind (fun vpr =>
                (parseObjRest fuel vpr.2).map
                  (fun pr2 => ((String.mk kpr.1, vpr.1) :: pr2.1, pr2.2)))
            | _ => none)
        | _ => none
      else none
    | [] => none

end

/-- Model of JSON.parse: parse one value and require only trailing
whitespace after it; any violation is the exception path (none). -/
def jsonParse (s : String) : Option JsonVal :=
  match parseVal (s.data.length + 8) s.data with
  | some (v, rest) => if rest.dropWhile isJsonWs = [] then some v else none
  | none => none

/-- Property lookup on a parsed value: the last duplicate wins, as in the
object JSON.parse builds; non-objects have no own properties (undefined,
modelled as none).  The null case is handled at each use site, where JS
would throw a TypeError. -/
def jget (v : JsonVal) (k : String) : Option JsonVal :=
  match v with
  | .obj fs => ((fs.reverse).find? (fun pr => pr.1 = k)).map (fun pr => pr.2)
  | _ => none

def hexDigit (n : Nat) : Char :=
  if n < 10 then Char.ofNat (48 + n) else Char.ofNat (87 + n)

def escJsonChar (c : Char) : String :=
  if c = '"' then "\\\""
  else if c = '\\' then "\\\\"
  else if c = '\n' then "\\n"
  else if c = '\r' then "\\r"
  else if c = '\t' then "\\t"
  else if c = '\x08' then "\\b"
  else if c = '\x0c' then "\\f"
  else if c.toNat < 32 then
    "\\u00" ++ String.mk [hexDigit (c.toNat / 16), hexDigit (c.toNat % 16)]
  else String.singleton c

def escJson (s : String) : String :=
  s.data.foldr (fun c acc => escJsonChar c ++ acc) ""

def quoteJson (s : String) : String := "\"" ++ escJson s ++ "\""

mutual

/-- Model of JSON.stringify with no spacing argument, as the driver uses
it to archive parsed replies and tool results. -/
def jsonStringify : JsonVal → String
  | .null => "null"
  | .bool true => "true"
  | .bool false => "false"
  | .num lex => lex
  | .str s => quoteJson s
  | .arr vs => "[" ++ stringifyElems vs ++ "]"
  | .obj fs => String.singleton lbraceC ++ stringifyFields fs ++ String.singleton rbraceC

def stringifyElems : List JsonVal → String
  | [] => ""
  | [v] => jsonStringify v
  | v :: vs => jsonStringify v ++ "," ++ stringifyElems vs

def stringifyFields : List (String × JsonVal) → String
  | [] => ""
  | [(k, v)] => quoteJson k ++ ":" ++ jsonStringify v
  | (k, v) :: fs => quoteJson k ++ ":" ++ jsonStringify v ++ "," ++ stringifyFields fs

end

/-! ### The filesystem model and the file materializer -/

/-- The filesystem: an association of file paths to contents, in creation
order.  Directories are implicit (mkdirSync has no further observable
effect on this model). -/
def fsGet : List (String × String) → String → Option String
  | [], _ => none
  | (q, d) :: rest, p => if q = p then some d else fsGet rest p

def fsSet : List (String × String) → String → String → List (String × String)
  | [], p, c => [(p, c)]
  | (q, d) :: rest, p, c =>
    if q = p then (q, c) :: rest else (q, d) :: fsSet rest p c

/-- Shallow embedding of createDynamicFile (lines 179-204) on string
arguments: confine the path, then create, overwrite or skip depending on
the existing content; the returned string is the reported outcome.  The
try/catch of the source converts I/O failures into an error string; the
modelled filesystem cannot fail. -/
def createDynamicFile (fs : List (String × String)) (fileNameArg content : String) :
    String × List (String × String) :=
  let fileName := normalizePath fileNameArg
  match fsGet fs fileName with
  | some existing =>
    if existing = content then
      ("File " ++ fileName ++ " unchanged (content identical)", fs)
    else
      ("File " ++ fileName ++ " updated successfully", fsSet fs fileName content)
  | none => ("File " ++ fileName ++ " created successfully", fsSet fs fileName content)

/-! ### Remaining tools of the registry -/

def endsWithS (s suffix : String) : Bool :=
  isPrefixList suffix.data.reverse s.data.reverse

def basenameJS (p : String) : String := (splitOnCharJS '/' p).getLastD ""

/-- The file type as computed on line 255: path.extname minus the dot, or
the basename when there is no (usable) extension. -/
def fileTypeOf (p : String) : String :=
  let b := basenameJS p
  let rev := b.data.reverse
  let extRev := rev.takeWhile (fun c => ¬(c = '.'))
  if extRev.length = rev.length then b
  else if extRev.isEmpty then b
  else if b.data.length - extRev.length - 1 = 0 then b
  else String.mk extRev.reverse

/-- The execution-instructions markdown template (generateExecuteMdContent,
lines 85-126).  The spec excludes the template body as cosmetic glue; the
model keeps only its dependence on the project name and type. -/
def generateExecuteMdContent (projectType projectName : String) : String :=
  "# Execution Instructions for " ++ projectName ++ " [" ++ projectType ++ "]"

/-- A network fetch outcome for generateFileContent: a thrown fetch or
non-ok status, a reply without a text candidate, or the reply text. -/
inductive ContentFetch
  | fail
  | noText
  | text (s : String)
deriving Repr, DecidableEq

/-- Shallow embedding of generateFileContent (lines 253-343).  The prompt
branches (description, isUpdate, updateIssue, UI guidelines) only shape the
text sent to the backend and are absorbed by the oracle; observable are
the execute.md early return (no network call) and the two fallbacks. -/
def generateFileContent (filePath projectType : String)
    (projectName : Option String) (oracle : ContentFetch) : String :=
  let normalizedFilePath := normalizePath filePath
  let fileType := fileTypeOf filePath
  if fileType = "md" ∧ endsWithS normalizedFilePath "execute.md" then
    generateExecuteMdContent projectType
      (match projectName with
        | some s => if s = "" then "unknown" else s
        | none => "unknown")
  else
    match oracle with
    | .fail => "// Error generating content for " ++ normalizedFilePath
    | .noText => "// Default " ++ fileType ++ " content"
    | .text s => s

/-- Shallow embedding of generateProjectStructure (lines 207-250).  The
network is an oracle: none models a thrown fetch or non-ok status (the
catch returns the empty object); some rawText is the reply text after the
fallback of the source itself to the empty object for a missing candidate.  The
cleaned text is returned whenever it parses as JSON, the empty object
otherwise. -/
def generateProjectStructure (raw : Option String) : String :=
  match raw with
  | none => "\x7b\x7d"
  | some rawText =>
    let cleanedText := cleanStructureText rawText
    match jsonParse cleanedText with
    | some _ => cleanedText
    | none => "\x7b\x7d"

/-- createDynamicFile as dispatched with a raw JSON argument value: only
an object carrying string fileName and content reaches the write path;
for anything else path.normalize or writeFileSync throws inside the
try block of the function itself, which reports the error outcome (the exact TypeError
message text is abstracted). -/
def createDynamicFileJS (fs : List (String × String)) (args : JsonVal) :
    String × List (String × String) :=
  match jget args "fileName", jget args "content" with
  | some (.str fn), some (.str ct) => createDynamicFile fs fn ct
  | _, _ => ("Error creating/updating file: TypeError", fs)

def underDir (dir p : String) : Bool := isPrefixList (dir ++ "/").data p.data

def childNameOf (dir p : String) : String :=
  String.mk ((p.data.drop (dir.data.length + 1)).takeWhile (fun c => ¬(c = '/')))

def dedupAux : List String → List String → List String
  | [], _ => []
  | x :: xs, seen =>
    if seen.contains x then dedupAux xs seen else x :: dedupAux xs (x :: seen)

def dirExistsFs (fs : List (String × String)) (dir : String) : Bool :=
  dir = ROOT_DIR || fs.any (fun pr => underDir dir pr.1)

/-- Shallow embedding of readDirectory (lines 148-176) over the modelled
filesystem.  The stat birth time is environmental and omitted; directory
sizes are modelled as 0 and file sizes count characters; listing order is
file-creation order, standing in for the platform readdirSync order; the
root directory always exists (ensureRootDir). -/
def readDirectory (fs : List (String × String)) (dirPath : String) : JsonVal :=
  if dirExistsFs fs dirPath then
    let children := dedupAux
      ((fs.filter (fun pr => underDir dirPath pr.1)).map
        (fun pr => childNameOf dirPath pr.1)) []
    JsonVal.obj [
      ("path", .str dirPath),
      ("items", .arr (children.map (fun nm =>
        JsonVal.obj [
          ("name", .str nm),
          ("path", .str (jsJoin [dirPath, nm])),
          ("isDirectory", .bool (fs.any (fun pr => underDir (dirPath ++ "/" ++ nm) pr.1))),
          ("size", .num (toString (match fsGet fs (dirPath ++ "/" ++ nm) with
            | some cont => cont.length
            | none => 0)))]))),
      ("message", .str ("Successfully read directory: " ++ dirPath))]
  else
    JsonVal.obj [
      ("path", .str dirPath),
      ("items", .arr []),
      ("message", .str ("Error reading directory " ++ dirPath ++ ": ENOENT"))]

/-- The read_directory tool called with a non-string argument: readdirSync
throws inside the tool, which catches and reports an error listing. -/
def readDirectoryBadArg (arg : JsonVal) : JsonVal :=
  JsonVal.obj [
    ("path", arg),
    ("items", .arr []),
    ("message", .str "Error reading directory: TypeError")]

/-! ### The workflow driver (runAgent) -/

/-- One conversation turn (the elements of the module-level contents
array, line 22). -/
structure Turn where
  role : String
  text : String
deriving Repr, DecidableEq

/-- The keys of the tool registry available_tools (lines 362-379). -/
def available_tools_keys : List String :=
  ["read_directory", "create_dynamic_file", "generate_project_structure",
    "generate_file_content"]

/-- The own property names of Object.prototype.  The registry check at
line 522 is a plain bracketed property access on the object literal
available_tools, so it walks the prototype chain: each of these names
resolves to a truthy inherited value (a built-in function, or the
prototype object itself for the accessor named with two leading
underscores). -/
def object_prototype_keys : List String :=
  ["constructor", "hasOwnProperty", "isPrototypeOf", "propertyIsEnumerable",
    "toLocaleString", "toString", "valueOf", "__defineGetter__",
    "__defineSetter__", "__lookupGetter__", "__lookupSetter__", "__proto__"]

/-- The module-level mutable state of src/index.ts: the conversation log,
the proposed structure and the project identity (lines 22-26), plus the
modelled filesystem. -/
structure GlobalState where
  contents : List Turn
  proposedStructure : List String
  projectType : Option String
  projectName : Option String
  fs : List (String × String)
deriving Repr, DecidableEq

/-- The per-run local variables of runAgent (lines 467-470) together with
the pending oracle inputs of the run, consumed in order. -/
structure RunState where
  g : GlobalState
  isUpdateRequest : Bool
  isExecutionRequest : Bool
  updateIssue : Option String
  updateFile : Option String
  structureFetches : List (Option String)
  contentFetches : List ContentFetch
  answers : List String
deriving Repr, DecidableEq

/-- Observable events of a run, used to state dispatch and gate
properties. -/
inductive Event
  | dispatched (fn : String)
  | toolResult (text : String)
  | gateAsked (struc : List String) (answer : String) (approved : Bool)
  | overrideRegen (file : String)
deriving Repr, DecidableEq

inductive RunOutcome
  | apiFail
  | errorCaught
  | rejected
  | done
  | outOfReplies
  | stuck
deriving Repr, DecidableEq

inductive StepOut
  | cont (st : RunState) (evs : List Event)
  | halt (st : RunState) (evs : List Event) (o : RunOutcome)
deriving Repr, DecidableEq

def pushTurn (g : GlobalState) (role text : String) : GlobalState :=
  { g with contents := g.contents ++ [⟨role, text⟩] }

/-- The strict-equality test of a parsed field against a string literal
(JS === between an arbitrary value and a string). -/
def asStr : Option JsonVal → Option String
  | some (.str s) => some s
  | _ => none

/-- The approval decision of presentStructure (lines 346-360): approve
exactly when the trimmed, lowercased answer is the token yes; anything
else resolves to a rejection. -/
def presentStructureApproved (answer : String) : Bool :=
  jsToLower (jsTrim answer) = "yes"

/-- The initialization classification (lines 494-502): scan the lowercased
original user message for update and execution trigger words. -/
def classifyInit (userMsg : String) (st : RunState) : RunState :=
  let lowerMsg := jsToLower userMsg
  if includesS lowerMsg "not working" || includesS lowerMsg "fix"
      || includesS lowerMsg "update" then
    { st with isUpdateRequest := true, updateIssue := some userMsg }
  else if includesS lowerMsg "run" || includesS lowerMsg "execute"
      || includesS lowerMsg "start" then
    { st with isExecutionRequest := true }
  else st

/-- The analyze-step field extraction (lines 504-520): project type and
name from the content prose (absence of a match leaves the previous value),
and, for an update run, the update file. -/
def applyAnalyze (content : String) (st : RunState) : RunState :=
  let st1 := { st with g := { st.g with
    projectType := match extractedType content with
      | some t => some t
      | none => st.g.projectType,
    projectName := match extractedName content with
      | some n => some n
      | none => st.g.projectName } }
  if st1.isUpdateRequest then
    match extractUpdateFile content with
    | some uf => { st1 with updateFile := some uf }
    | none => st1
  else st1

/-- Outcome of the dispatch block for one declared registry function. -/
inductive DispatchOut
  | ok (st : RunState) (resultText : String)
  | threw
  | noOracle
deriving Repr, DecidableEq

/-- Materialize a list of create_dynamic_file records in order (lines
542-548), joining the outcome strings; a null record makes the arg
property access throw (none). -/
def createFilesFold (fs : List (String × String)) :
    List JsonVal → Option (List String × List (String × String))
  | [] => some ([], fs)
  | arg :: rest =>
    match arg with
    | .null => none
    | _ =>
      let pr := createDynamicFileJS fs arg
      (createFilesFold pr.2 rest).map (fun pr2 => (pr.1 :: pr2.1, pr2.2))

def joinNl : List String → String
  | [] => ""
  | [s] => s
  | s :: rest => s ++ "\n" ++ joinNl rest

/-- The argument-shape dispatch of runAgent (lines 522-558) for a registry
function name.  Property accesses on null or missing args where the source
would raise a TypeError yield threw (caught by the surrounding try);
network results come from the scripted oracles.  The resultText is the
JSON.stringify of the tool result that is pushed as a user turn. -/
def dispatchTool (st : RunState) (fn : String) (argsV : Option JsonVal) : DispatchOut :=
  if fn = "generate_project_structure" then
    match argsV with
    | none => .threw
    | some .null => .threw
    | some _ =>
      match st.structureFetches with
      | [] => .noOracle
      | raw :: restF =>
        let functionResult := generateProjectStructure raw
        match jsonParse functionResult with
        | none => .threw
        | some parsedResult =>
          let struc := match jget parsedResult "structure" with
            | some (.arr l) =>
              l.filterMap (fun v => match v with | .str s => some s | _ => none)
            | _ => []
          .ok { st with
              g := { st.g with proposedStructure := struc },
              structureFetches := restF }
            (jsonStringify parsedResult)
  else if fn = "generate_file_content" then
    match argsV with
    | none => .threw
    | some .null => .threw
    | some args =>
      match jget args "filePath" with
      | some (.str fp) =>
        match jget args "projectType" with
        | some (.str pt) =>
          match st.contentFetches with
          | [] => .noOracle
          | oracle :: restC =>
            .ok { st with contentFetches := restC }
              (jsonStringify (.str (generateFileContent fp pt st.g.projectName oracle)))
        | _ =>
          -- a non-string projectType throws on toLowerCase, except in the
          -- html branch whose short-circuit never calls it
          if fileTypeOf fp = "html" then
            match st.contentFetches with
            | [] => .noOracle
            | oracle :: restC =>
              .ok { st with contentFetches := restC }
                (jsonStringify (.str (generateFileContent fp "undefined" st.g.projectName oracle)))
          else .threw
      | _ => .threw
  else if fn = "create_dynamic_file" then
    match argsV with
    | none => .threw
    | some .null => .threw
    | some (.arr entries) =>
      match createFilesFold st.g.fs entries with
      | none => .threw
      | some pr =>
        .ok { st with g := { st.g with fs := pr.2 } } (jsonStringify (.str (joinNl pr.1)))
    | some args =>
      let pr := createDynamicFileJS st.g.fs args
      .ok { st with g := { st.g with fs := pr.2 } } (jsonStringify (.str pr.1))
  else if fn = "read_directory" then
    let res := match argsV with
      | none => readDirectory st.g.fs ROOT_DIR
      | some (.str s) => readDirectory st.g.fs s
      | some v => readDirectoryBadArg v
    .ok st (jsonStringify res)
  else
    -- reached only through the prototype chain: available_tools[fn] is an
    -- inherited Object.prototype member, so the .fn read at line 524 gives
    -- undefined and the call at line 554 raises a TypeError
    .threw

/-- The generate_files override of an update run with a resolved update
file (lines 568-578): regenerate the file content (network oracle) and
call the create_dynamic_file tool directly with the freshly built
one-element args array, logging the stringified result.  Returns none when
the override does not fire; the returned events do not include the events
accumulated earlier in the iteration. -/
def overrideBlock (st : RunState) (dataObj : JsonVal) : Option StepOut :=
  let stepV := asStr (jget dataObj "step")
  if stepV = some "generate_files" ∧ st.isUpdateRequest = true then
    match st.updateFile with
    | some uf =>
      if uf = "" then none
      else
        -- dataObj.args?.projectType with the default of HTML web app (the description
        -- default similarly shapes only the prompt)
        let pt := match (jget dataObj "args").bind (fun a => jget a "projectType") with
          | some (.str s) => if s = "" then "HTML web app" else s
          | _ => "HTML web app"
        match st.contentFetches with
        | [] => some (.halt st [] .stuck)
        | oracle :: restC =>
          let content := generateFileContent uf pt st.g.projectName oracle
          let argsArr := JsonVal.arr
            [JsonVal.obj [("fileName", .str uf), ("content", .str content)]]
          let pr := createDynamicFileJS st.g.fs argsArr
          let st2 := { st with
            g := pushTurn { st.g with fs := pr.2 } "user" (jsonStringify (.str pr.1)),
            contentFetches := restC }
          some (.cont st2 [.overrideRegen uf, .toolResult (jsonStringify (.str pr.1))])
    | none => none
  else none

/-- The final_result handling (lines 580-600: reset the module-level
context and the run locals, exit the loop) or the synthetic proceed turn
(line 602). -/
def finalizeStep (st : RunState) (evs : List Event) (stepV : Option String) : StepOut :=
  if stepV = some "final_result" then
    .halt { st with
              g := { st.g with
                       proposedStructure := [],
                       projectType := none,
                       projectName := none },
              isUpdateRequest := false,
              isExecutionRequest := false,
              updateIssue := none,
              updateFile := none } evs .done
  else .cont { st with g := pushTurn st.g "user" "Proceed to next step" } evs

/-- The tail of one loop iteration after the gate: the generate_files
override for update runs, then final_result or the proceed turn. -/
def afterGate (_userMsg : String) (st : RunState) (evs : List Event)
    (dataObj : JsonVal) : StepOut :=
  let stepV := asStr (jget dataObj "step")
  match overrideBlock st dataObj with
  | some (.halt st2 evs2 o) => .halt st2 (evs ++ evs2) o
  | some (.cont st2 evs2) => finalizeStep st2 (evs ++ evs2) stepV
  | none => finalizeStep st evs stepV

/-- The approval gate firing condition and suspension (lines 560-566): at
a generate_structure step of a new-project run with a non-empty proposed
structure, consume one scripted answer; rejection aborts the run. -/
def afterDispatch (userMsg : String) (st : RunState) (evs : List Event)
    (dataObj : JsonVal) : StepOut :=
  let stepV := asStr (jget dataObj "step")
  if stepV = some "generate_structure" ∧ st.g.proposedStructure ≠ []
      ∧ st.isUpdateRequest = false ∧ st.isExecutionRequest = false then
    match st.answers with
    | [] => .halt st evs .stuck
    | answer :: restA =>
      let approved := presentStructureApproved answer
      let st2 := { st with answers := restA }
      let evs2 := evs ++ [.gateAsked st.g.proposedStructure answer approved]
      if approved then afterGate userMsg st2 evs2 dataObj
      else .halt st2 evs2 .rejected
  else afterGate userMsg st evs dataObj

/-- The registry lookup of the dispatch block (line 522): the declared
function enters the dispatch block exactly when it is a truthy (non-empty)
string whose bracketed lookup on available_tools is truthy — that is, a
registry key, or a property name inherited from Object.prototype, since
the access walks the prototype chain.  Any other declared value is
silently skipped. -/
def declaredFn (dataObj : JsonVal) : Option String :=
  match jget dataObj "function" with
  | some (.str fn) =>
    if ¬(fn = "") ∧ (fn ∈ available_tools_keys ∨ fn ∈ object_prototype_keys)
      then some fn else none
  | _ => none

/-- The dispatch block (lines 522-558): a registry hit runs the tool and
pushes the stringified result as a user turn; a modelled TypeError or a
missing oracle halts; with no registry hit the iteration continues
directly. -/
def runStepRest (userMsg : String) (st : RunState) (dataObj : JsonVal) : StepOut :=
  match declaredFn dataObj with
  | some fn =>
    match dispatchTool st fn (jget dataObj "args") with
    | .threw => .halt st [] .errorCaught
    | .noOracle => .halt st [] .stuck
    | .ok st2 resultText =>
      afterDispatch userMsg { st2 with g := pushTurn st2.g "user" resultText }
        [.dispatched fn, .toolResult resultText] dataObj
  | none => afterDispatch userMsg st [] dataObj

/-- The body of one loop iteration once a non-null payload has been
parsed: archive the reply as a model turn, classify on initialization,
extract on analyze (where a non-string content would throw at the match
call), then dispatch and continue. -/
def runStepBody (userMsg : String) (st : RunState) (dataObj : JsonVal) : StepOut :=
  let stepV := asStr (jget dataObj "step")
  let st1 := { st with g := pushTurn st.g "model" (jsonStringify dataObj) }
  let st2 := if stepV = some "initialization" then classifyInit userMsg st1 else st1
  if stepV = some "analyze" then
    match jget dataObj "content" with
    | some (.str content) => runStepRest userMsg (applyAnalyze content st2) dataObj
    | _ => .halt st2 [] .errorCaught
  else runStepRest userMsg st2 dataObj

/-- One iteration of the while loop of runAgent (lines 472-607) on one
scripted backend reply: none is a failed generateContent; a cleaned reply
that JSON.parse rejects, or a null payload whose first property access
throws, takes the catch path and aborts the run; otherwise the reply is
interpreted by runStepBody. -/
def runStep (userMsg : String) (st : RunState) (reply : Option String) : StepOut :=
  match reply with
  | none => .halt st [] .apiFail
  | some response =>
    let cleaned := cleanResponse response
    match jsonParse cleaned with
    | none => .halt st [] .errorCaught
    | some dataObj =>
      match dataObj with
      | .null => .halt st [] .errorCaught
      | _ => runStepBody userMsg st dataObj

/-- The while loop of runAgent over the scripted backend replies. -/
def runLoop (userMsg : String) : RunState → List (Option String) →
    RunState × List Event × RunOutcome
  | st, [] => (st, [], .outOfReplies)
  | st, reply :: rest =>
    match runStep userMsg st reply with
    | .halt st2 evs o => (st2, evs, o)
    | .cont st2 evs =>
      let r := runLoop userMsg st2 rest
      (r.1, evs ++ r.2.1, r.2.2)

/-- A whole scripted run: the user message, the backend replies, and the
oracle inputs for the network tools and the approval gate. -/
structure RunInput where
  userMsg : String
  replies : List (Option String)
  structureFetches : List (Option String)
  contentFetches : List ContentFetch
  answers : List String
deriving Repr, DecidableEq

/-- Shallow embedding of runAgent (lines 461-608): append the user turn,
start the loop with fresh per-run locals, and return the module-level
state that the next run will start from, the events of the run and its
outcome. -/
def runStartState (g : GlobalState) (input : RunInput) : RunState :=
  { g := pushTurn g "user" input.userMsg,
    isUpdateRequest := false, isExecutionRequest := false,
    updateIssue := none, updateFile := none,
    structureFetches := input.structureFetches,
    contentFetches := input.contentFetches,
    answers := input.answers }

def runAgent (g : GlobalState) (input : RunInput) :
    GlobalState × List Event × RunOutcome :=
  let r := runLoop input.userMsg (runStartState g input) input.replies
  (r.1.g, r.2.1, r.2.2)

/-- The state of the module as the process starts: empty conversation,
no proposal, no project identity, empty root directory. -/
def initialGlobal : GlobalState :=
  { contents := [], proposedStructure := [], projectType := none,
    projectName := none, fs := [] }

/-- A run-state with fresh locals and no scripted oracles over a given
global state (the state runAgent builds before its loop). -/
def mkRunState (g : GlobalState) : RunState :=
  { g := g, isUpdateRequest := false, isExecutionRequest := false,
    updateIssue := none, updateFile := none, structureFetches := [],
    contentFetches := [], answers := [] }

/-! ### Scripted scenario runs used as concrete evidence -/

/-- A backend reply whose step value is outside the five-step enum but
which is well-formed JSON. -/
def bogusStepReply : String :=
  "\x7b\"step\":\"bogus\",\"content\":\"x\",\"function\":null,\"args\":null\x7d"

/-- The five step names of the StepType union (line 13). -/
def stepEnum : List String :=
  ["initialization", "analyze", "generate_structure", "generate_files",
    "final_result"]

def bogusRun : RunInput :=
  { userMsg := "hi", replies := [some bogusStepReply],
    structureFetches := [], contentFetches := [], answers := [] }

/-- A backend reply declaring the function name constructor: not a
registry key, but an Object.prototype property, so the truthy lookup at
line 522 admits it into the dispatch block. -/
def constructorReply : String :=
  "\x7b\"step\":\"analyze\",\"content\":\"a\",\"function\":\"constructor\",\"args\":null\x7d"

def constructorRun : RunInput :=
  { userMsg := "hi", replies := [some constructorReply],
    structureFetches := [], contentFetches := [], answers := [] }

/-- Scenario: a new-project run whose analyze step declares a
create_dynamic_file call, followed by a structure proposal that the user
rejects.  The reply contents are kept minimal so that the run evaluates
inside the kernel. -/
def analyzeCdfReply : String :=
  "\x7b\"step\":\"analyze\",\"content\":\"a\",\"function\":\"create_dynamic_file\",\"args\":\x7b\"fileName\":\"todo-app/x.txt\",\"content\":\"hi\"\x7d\x7d"

def genStructReply : String :=
  "\x7b\"step\":\"generate_structure\",\"content\":\"g\",\"function\":\"generate_project_structure\",\"args\":\x7b\"projectType\":\"h\",\"description\":\"d\"\x7d\x7d"

def structFetchText : String :=
  "\x7b\"structure\":[\"chaicode/todo-app/index.html\"]\x7d"

def rejectedNewProjectRun : RunInput :=
  { userMsg := "Create a to-do list in HTML",
    replies := [some analyzeCdfReply, some genStructReply],
    structureFetches := [some structFetchText],
    contentFetches := [],
    answers := ["no"] }

/-- Scenario: a second run after the rejected one, whose
generate_structure step declares no function at all. -/
def genStructNoFnReply : String :=
  "\x7b\"step\":\"generate_structure\",\"content\":\"g\",\"function\":null,\"args\":null\x7d"

def followUpRun : RunInput :=
  { userMsg := "Create a snake game in HTML",
    replies := [some genStructNoFnReply],
    structureFetches := [], contentFetches := [],
    answers := ["no"] }

/-- Scenario: the generate_files step of an update run, with a resolved
update file, declaring a read_directory call.  The step record and the
run-local state it is processed in are built directly; the classification
and extraction that produce such a state are established by the C6
theorem. -/
def genFilesRdReply : String :=
  "\x7b\"step\":\"generate_files\",\"content\":\"f\",\"function\":\"read_directory\",\"args\":\"chaicode\"\x7d"

def genFilesRdObj : JsonVal :=
  .obj [("step", .str "generate_files"), ("content", .str "f"),
    ("function", .str "read_directory"), ("args", .str "chaicode")]

def updateStepState : RunState :=
  { mkRunState initialGlobal with
      isUpdateRequest := true,
      updateIssue := some "fix the style",
      updateFile := some "todo-app/style.css",
      contentFetches := [ContentFetch.text "body"] }

def stepOutEvents : StepOut → List Event
  | .cont _ evs => evs
  | .halt _ evs _ => evs

def stepOutState : StepOut → RunState
  | .cont st _ => st
  | .halt st _ _ => st

def isCont : StepOut → Bool
  | .cont _ _ => true
  | .halt _ _ _ => false

/-- The analyze content of testable-property Scenario B. -/
def scenarioBContent : String :=
  "Found project " ++ apos ++ "todo-app" ++ apos ++ " in " ++ apos ++ "root"
    ++ apos ++ " with a style.css."

/-- A reply that reaches final_result immediately. -/
def finalReply : String :=
  "\x7b\"step\":\"final_result\",\"content\":\"done\",\"function\":null,\"args\":null\x7d"

def doneRun : RunInput :=
  { userMsg := "hi", replies := [some finalReply],
    structureFetches := [], contentFetches := [], answers := [] }

/-! ### Halt-shape lemmas for the driver loop -/

/-! ### Claim theorems about the parser and the driver -/

/-! ### Theorems -/

theorem splitCharsAux_nil (sep : Char) (acc : List Char) :
    splitCharsAux sep [] acc = [String.mk acc.reverse] := rfl

theorem splitCharsAux_cons_sep (sep : Char) (ys acc : List Char) :
    splitCharsAux sep (sep :: ys) acc
      = String.mk acc.reverse :: splitCharsAux sep ys [] := by
  simp [splitCharsAux]

theorem splitCharsAux_cons_ne (sep c : Char) (ys acc : List Char) (hc : ¬(c = sep)) :
    splitCharsAux sep (c :: ys) acc = splitCharsAux sep ys (c :: acc) := by
  simp [splitCharsAux, hc]

theorem splitCharsAux_ne_nil (sep : Char) (l acc : List Char) :
    splitCharsAux sep l acc ≠ [] := by
  induction l generalizing acc with
  | nil => simp [splitCharsAux_nil]
  | cons c cs ih =>
    by_cases hc : c = sep
    · subst hc
      rw [splitCharsAux_cons_sep]
      simp
    · rw [splitCharsAux_cons_ne sep c cs acc hc]
      exact ih _

theorem splitCharsAux_append_no_sep (sep : Char) (xs ys acc : List Char)
    (h : sep ∉ xs) :
    splitCharsAux sep (xs ++ ys) acc = splitCharsAux sep ys (xs.reverse ++ acc) := by
  induction xs generalizing acc with
  | nil => simp
  | cons c cs ih =>
    have hc : ¬(c = sep) := fun hcs => h (hcs ▸ List.mem_cons_self c cs)
    have hmem : sep ∉ cs := fun hm => h (List.mem_cons_of_mem c hm)
    rw [List.cons_append, splitCharsAux_cons_ne sep c (cs ++ ys) acc hc, ih _ hmem]
    simp

theorem splitCharsAux_append_sep (sep : Char) (xs ys acc : List Char) :
    splitCharsAux sep (xs ++ sep :: ys) acc =
      splitCharsAux sep xs acc ++ splitCharsAux sep ys [] := by
  induction xs generalizing acc with
  | nil =>
    rw [List.nil_append, splitCharsAux_cons_sep, splitCharsAux_nil]
    rfl
  | cons c cs ih =>
    by_cases hc : c = sep
    · subst hc
      rw [List.cons_append, splitCharsAux_cons_sep, splitCharsAux_cons_sep, ih]
      rfl
    · rw [List.cons_append, splitCharsAux_cons_ne sep c _ acc hc,
        splitCharsAux_cons_ne sep c cs acc hc]
      exact ih _

/-- Every piece produced by the split is free of the separator. -/
theorem splitCharsAux_no_sep (sep : Char) (l acc : List Char)
    (hacc : sep ∉ acc) :
    ∀ x ∈ splitCharsAux sep l acc, sep ∉ x.data := by
  induction l generalizing acc with
  | nil =>
    intro x hx
    simp [splitCharsAux] at hx
    subst hx
    simpa using hacc
  | cons c cs ih =>
    intro x hx
    simp only [splitCharsAux] at hx
    by_cases hc : c = sep
    · rw [if_pos hc] at hx
      rcases List.mem_cons.mp hx with h1 | h1
      · subst h1; simpa using hacc
      · exact ih [] (by simp) x h1
    · rw [if_neg hc] at hx
      refine ih (c :: acc) ?_ x hx
      intro hm
      rcases List.mem_cons.mp hm with h1 | h1
      · exact hc h1.symm
      · exact hacc h1

/-- Every character of a piece produced by the split is a character of the
original character list. -/
theorem splitCharsAux_chars_subset (sep : Char) (l acc : List Char) :
    ∀ x ∈ splitCharsAux sep l acc, ∀ c ∈ x.data, c ∈ acc ∨ c ∈ l := by
  induction l generalizing acc with
  | nil =>
    intro x hx c hc
    simp [splitCharsAux] at hx
    subst hx
    simp at hc
    exact Or.inl hc
  | cons d ds ih =>
    intro x hx c hc
    simp only [splitCharsAux] at hx
    by_cases hd : d = sep
    · rw [if_pos hd] at hx
      rcases List.mem_cons.mp hx with h1 | h1
      · subst h1
        simp at hc
        exact Or.inl hc
      · rcases ih [] x h1 c hc with h2 | h2
        · simp at h2
        · exact Or.inr (List.mem_cons_of_mem d h2)
    · rw [if_neg hd] at hx
      rcases ih (d :: acc) x hx c hc with h2 | h2
      · rcases List.mem_cons.mp h2 with h3 | h3
        · exact Or.inr (h3 ▸ List.mem_cons_self d ds)
        · exact Or.inl h3
      · exact Or.inr (List.mem_cons_of_mem d h2)

theorem splitOnCharJS_ne_nil (sep : Char) (s : String) :
    splitOnCharJS sep s ≠ [] :=
  splitCharsAux_ne_nil sep s.data []

theorem splitOnCharJS_no_sep (sep : Char) (s : String) :
    ∀ x ∈ splitOnCharJS sep s, sep ∉ x.data :=
  splitCharsAux_no_sep sep s.data [] (by simp)

theorem splitOnCharJS_chars_subset (sep : Char) (s : String) :
    ∀ x ∈ splitOnCharJS sep s, ∀ c ∈ x.data, c ∈ s.data := by
  intro x hx c hc
  rcases splitCharsAux_chars_subset sep s.data [] x hx c hc with h | h
  · simp at h
  · exact h

theorem mk_data (s : String) : String.mk s.data = s := String.ext rfl

/-- Splitting the slash-join of a list of slash-free segments recovers the
list. -/
theorem splitOnCharJS_joinSlash (l : List String) (hne : l ≠ [])
    (hfree : ∀ x ∈ l, '/' ∉ x.data) :
    splitOnCharJS '/' (joinSlash l) = l := by
  induction l with
  | nil => cases hne rfl
  | cons a rest ih =>
    cases rest with
    | nil =>
      show splitCharsAux '/' a.data [] = [a]
      have hfa : '/' ∉ a.data := hfree a (List.mem_cons_self a [])
      have h1 := splitCharsAux_append_no_sep '/' a.data [] [] hfa
      rw [List.append_nil, List.append_nil] at h1
      rw [h1, splitCharsAux_nil, List.reverse_reverse, mk_data]
    | cons b bs =>
      show splitCharsAux '/' (joinSlash (a :: b :: bs)).data [] = a :: b :: bs
      have hdata : (joinSlash (a :: b :: bs)).data
          = a.data ++ '/' :: (joinSlash (b :: bs)).data := by
        show (a ++ "/" ++ joinSlash (b :: bs)).data = _
        rw [String.data_append, String.data_append]
        simp
      rw [hdata, splitCharsAux_append_sep]
      have hfa : '/' ∉ a.data := hfree a (List.mem_cons_self a _)
      have h1 := splitCharsAux_append_no_sep '/' a.data [] [] hfa
      rw [List.append_nil, List.append_nil] at h1
      rw [h1, splitCharsAux_nil, List.reverse_reverse, mk_data]
      have h2 := ih (by simp) (fun x hx => hfree x (List.mem_cons_of_mem a hx))
      rw [show splitCharsAux '/' (joinSlash (b :: bs)).data []
        = splitOnCharJS '/' (joinSlash (b :: bs)) from rfl, h2]
      rfl

/-- Joining the pieces of a slash-split recovers the original character list. -/
theorem joinSlash_splitCharsAux (l acc : List Char) :
    (joinSlash (splitCharsAux '/' l acc)).data = acc.reverse ++ l := by
  induction l generalizing acc with
  | nil => simp [splitCharsAux_nil, joinSlash]
  | cons c cs ih =>
    by_cases hc : c = '/'
    · subst hc
      rw [splitCharsAux_cons_sep]
      have hne := splitCharsAux_ne_nil '/' cs ([] : List Char)
      cases hcs : splitCharsAux '/' cs [] with
      | nil => exact absurd hcs hne
      | cons p ps =>
        have hj : joinSlash (String.mk acc.reverse :: p :: ps)
            = String.mk acc.reverse ++ "/" ++ joinSlash (p :: ps) := rfl
        rw [hj, String.data_append, String.data_append]
        have ihcs := ih ([] : List Char)
        rw [hcs, List.reverse_nil, List.nil_append] at ihcs
        rw [ihcs]
        simp
    · rw [splitCharsAux_cons_ne '/' c cs acc hc, ih (c :: acc)]
      simp

theorem joinSlash_splitOnCharJS (s : String) :
    joinSlash (splitOnCharJS '/' s) = s := by
  apply String.ext
  rw [show splitOnCharJS '/' s = splitCharsAux '/' s.data [] from rfl]
  rw [joinSlash_splitCharsAux]
  simp

theorem joinSlash_cons_data (a : String) (l : List String) (h : l ≠ []) :
    (joinSlash (a :: l)).data = a.data ++ '/' :: (joinSlash l).data := by
  cases l with
  | nil => cases h rfl
  | cons b bs =>
    show (a ++ "/" ++ joinSlash (b :: bs)).data = _
    rw [String.data_append, String.data_append]
    simp

theorem joinSlash_chars (l : List String) :
    ∀ c ∈ (joinSlash l).data, c = '/' ∨ ∃ x ∈ l, c ∈ x.data := by
  induction l with
  | nil => intro c hc; simp [joinSlash] at hc
  | cons a rest ih =>
    intro c hc
    cases rest with
    | nil =>
      exact Or.inr ⟨a, List.mem_cons_self a _, hc⟩
    | cons b bs =>
      rw [joinSlash_cons_data a (b :: bs) (by simp)] at hc
      rcases List.mem_append.mp hc with h1 | h1
      · exact Or.inr ⟨a, List.mem_cons_self a _, h1⟩
      · rcases List.mem_cons.mp h1 with h2 | h2
        · exact Or.inl h2
        · rcases ih c h2 with h3 | ⟨x, hx, hcx⟩
          · exact Or.inl h3
          · exact Or.inr ⟨x, List.mem_cons_of_mem a hx, hcx⟩

theorem replaceBackslashes_no_backslash (s : String) :
    '\\' ∉ (replaceBackslashes s).data := by
  intro h
  simp only [replaceBackslashes] at h
  rcases List.mem_map.mp h with ⟨c, _, hc⟩
  by_cases hb : c = '\\' <;> simp [hb] at hc

theorem replaceBackslashes_eq_self (s : String)
    (h : ∀ c ∈ s.data, ¬(c = '\\')) : replaceBackslashes s = s := by
  apply String.ext
  show s.data.map _ = s.data
  have h1 : s.data.map (fun c => if c = '\\' then '/' else c) = s.data.map id :=
    List.map_congr_left (fun c hc => by simp [h c hc])
  rw [h1, List.map_id]

theorem replaceBackslashes_append (a b : String) :
    replaceBackslashes (a ++ b) = replaceBackslashes a ++ replaceBackslashes b := by
  apply String.ext
  show ((a ++ b).data).map _ = _
  rw [String.data_append, String.data_append, List.map_append]
  rfl

theorem mem_normSegsStep (isAbs : Bool) (acc : List String) (s x : String)
    (hx : x ∈ normSegsStep isAbs acc s) : x ∈ acc ∨ x = s := by
  unfold normSegsStep at hx
  by_cases h1 : s = "" ∨ s = "."
  · rw [if_pos h1] at hx
    exact Or.inl hx
  · rw [if_neg h1] at hx
    by_cases h2 : s = ".."
    · rw [if_pos h2] at hx
      cases acc with
      | nil =>
        cases isAbs with
        | true => simp at hx
        | false =>
          simp at hx
          exact Or.inr (hx.trans h2.symm)
      | cons a rest =>
        have hx2 : x ∈ if a = ".." then s :: a :: rest else rest := hx
        by_cases h3 : a = ".."
        · rw [if_pos h3] at hx2
          rcases List.mem_cons.mp hx2 with h4 | h4
          · exact Or.inr h4
          · exact Or.inl h4
        · rw [if_neg h3] at hx2
          exact Or.inl (List.mem_cons_of_mem a hx2)
    · rw [if_neg h2] at hx
      rcases List.mem_cons.mp hx with h4 | h4
      · exact Or.inr h4
      · exact Or.inl h4

theorem mem_foldl_normSegsStep (isAbs : Bool) (segs acc : List String) :
    ∀ x ∈ segs.foldl (normSegsStep isAbs) acc, x ∈ acc ∨ x ∈ segs := by
  induction segs generalizing acc with
  | nil => intro x hx; exact Or.inl hx
  | cons s ss ih =>
    intro x hx
    rcases ih (normSegsStep isAbs acc s) x hx with h | h
    · rcases mem_normSegsStep isAbs acc s x h with h1 | h1
      · exact Or.inl h1
      · exact Or.inr (h1 ▸ List.mem_cons_self s ss)
    · exact Or.inr (List.mem_cons_of_mem s h)

theorem mem_normalizeSegs (isAbs : Bool) (segs : List String) :
    ∀ x ∈ normalizeSegs isAbs segs, x ∈ segs := by
  intro x hx
  rw [normalizeSegs, List.mem_reverse] at hx
  rcases mem_foldl_normSegsStep isAbs segs [] x hx with h | h
  · simp at h
  · exact h

theorem foldl_normSegsStep_no_dotdot (isAbs : Bool) (segs acc : List String)
    (h : ".." ∉ segs) :
    segs.foldl (normSegsStep isAbs) acc
      = (segs.filter keepSeg).reverse ++ acc := by
  induction segs generalizing acc with
  | nil => simp
  | cons s ss ih =>
    have hs : ¬(s = "..") := fun hss => h (hss ▸ List.mem_cons_self s ss)
    have hss : ".." ∉ ss := fun hm => h (List.mem_cons_of_mem s hm)
    by_cases hskip : s = "" ∨ s = "."
    · have hstep : normSegsStep isAbs acc s = acc := by
        unfold normSegsStep
        rw [if_pos hskip]
      have hkeep : keepSeg s = false := by simp [keepSeg, hskip]
      rw [List.foldl_cons, hstep, ih acc hss, List.filter_cons, hkeep]
      simp
    · have hstep : normSegsStep isAbs acc s = s :: acc := by
        unfold normSegsStep
        rw [if_neg hskip, if_neg hs]
      have hkeep : keepSeg s = true := by simp [keepSeg, hskip]
      rw [List.foldl_cons, hstep, ih (s :: acc) hss, List.filter_cons, hkeep]
      simp

theorem normalizeSegs_no_dotdot (isAbs : Bool) (segs : List String)
    (h : ".." ∉ segs) :
    normalizeSegs isAbs segs = segs.filter keepSeg := by
  rw [normalizeSegs, foldl_normSegsStep_no_dotdot isAbs segs [] h]
  simp

theorem segsAll_ne_nil (s : String) : segsAll s ≠ [] :=
  splitOnCharJS_ne_nil '/' (replaceBackslashes s)

theorem segsAll_append_slash (a b : String) :
    segsAll (a ++ "/" ++ b) = segsAll a ++ segsAll b := by
  unfold segsAll splitOnCharJS
  rw [replaceBackslashes_append, replaceBackslashes_append]
  rw [String.data_append, String.data_append]
  have hslash : (replaceBackslashes "/").data = ['/'] := by decide
  rw [hslash]
  rw [List.append_assoc, List.singleton_append]
  exact splitCharsAux_append_sep '/' _ _ []

theorem segsAll_slash_prepend (b : String) :
    segsAll ("/" ++ b) = "" :: segsAll b := by
  unfold segsAll splitOnCharJS
  rw [replaceBackslashes_append]
  rw [String.data_append]
  have hslash : (replaceBackslashes "/").data = ['/'] := by decide
  rw [hslash, List.singleton_append, splitCharsAux_cons_sep]
  rfl

theorem segsAll_joinSlash (l : List String) (hne : l ≠ []) :
    segsAll (joinSlash l) = l.flatMap segsAll := by
  induction l with
  | nil => cases hne rfl
  | cons a rest ih =>
    cases rest with
    | nil => simp [joinSlash]
    | cons b bs =>
      have hj : joinSlash (a :: b :: bs) = a ++ "/" ++ joinSlash (b :: bs) := rfl
      rw [hj, segsAll_append_slash, ih (by simp)]
      simp

/-- Every string is the slash-join of its raw slash-split. -/
theorem segsAll_eq_flatMap (p : String) :
    segsAll p = (splitOnCharJS '/' p).flatMap segsAll := by
  conv_lhs => rw [← joinSlash_splitOnCharJS p]
  exact segsAll_joinSlash _ (splitOnCharJS_ne_nil '/' p)

theorem mem_segsAll_of_mem_split (p x y : String)
    (hx : x ∈ splitOnCharJS '/' p) (hy : y ∈ segsAll x) : y ∈ segsAll p := by
  rw [segsAll_eq_flatMap p]
  exact List.mem_flatMap.mpr ⟨x, hx, hy⟩

theorem no_dotdot_split (p : String) (h : ".." ∉ segsAll p) :
    ".." ∉ splitOnCharJS '/' p := by
  intro hmem
  exact h (mem_segsAll_of_mem_split p ".." ".." hmem (by decide))

theorem head?_some_mem (l : List α) (a : α) (h : l.head? = some a) : a ∈ l := by
  cases l <;> simp_all

theorem eq_cons_of_head? (l : List α) (a : α) (h : l.head? = some a) :
    l = a :: l.tail := by
  cases l <;> simp_all

theorem jsNormalize_unfold (p : String) :
    jsNormalize p =
      if p.data.head? = some '/' then
        "/" ++ joinSlash (normalizeSegs true (splitOnCharJS '/' p))
      else if normalizeSegs false (splitOnCharJS '/' p) = [] then "."
      else joinSlash (normalizeSegs false (splitOnCharJS '/' p)) := by
  by_cases habs : p.data.head? = some '/'
  · simp [jsNormalize, habs]
  · simp [jsNormalize, habs]

theorem jsJoin_unfold (l : List String) :
    jsJoin l =
      if joinSlash (l.filter (fun s => s ≠ "")) = "" then "."
      else jsNormalize (joinSlash (l.filter (fun s => s ≠ ""))) := rfl

/-- Every slash-separated piece of the normalized path is empty, a dot, or
already a slash-or-backslash piece of the original path. -/
theorem mem_segsAll_jsNormalize (p y : String)
    (hy : y ∈ segsAll (jsNormalize p)) :
    y = "" ∨ y = "." ∨ y ∈ segsAll p := by
  rw [jsNormalize_unfold] at hy
  by_cases habs : p.data.head? = some '/'
  · rw [if_pos habs] at hy
    cases hout : normalizeSegs true (splitOnCharJS '/' p) with
    | nil =>
      rw [hout] at hy
      have : segsAll ("/" ++ joinSlash ([] : List String)) = ["", ""] := by decide
      rw [this] at hy
      rcases List.mem_cons.mp hy with h1 | h1
      · exact Or.inl h1
      · simp at h1
        exact Or.inl h1
    | cons a rest =>
      rw [hout, segsAll_slash_prepend, segsAll_joinSlash _ (by simp)] at hy
      rcases List.mem_cons.mp hy with h1 | h1
      · exact Or.inl h1
      · rcases List.mem_flatMap.mp h1 with ⟨x, hx, hyx⟩
        have hx2 : x ∈ splitOnCharJS '/' p :=
          mem_normalizeSegs true _ x (hout ▸ hx)
        exact Or.inr (Or.inr (mem_segsAll_of_mem_split p x y hx2 hyx))
  · rw [if_neg habs] at hy
    cases hout : normalizeSegs false (splitOnCharJS '/' p) with
    | nil =>
      rw [hout, if_pos rfl] at hy
      have : segsAll "." = ["."] := by decide
      rw [this] at hy
      simp at hy
      exact Or.inr (Or.inl hy)
    | cons a rest =>
      rw [hout, if_neg (by simp), segsAll_joinSlash _ (by simp)] at hy
      rcases List.mem_flatMap.mp hy with ⟨x, hx, hyx⟩
      have hx2 : x ∈ splitOnCharJS '/' p :=
        mem_normalizeSegs false _ x (hout ▸ hx)
      exact Or.inr (Or.inr (mem_segsAll_of_mem_split p x y hx2 hyx))

theorem normalizePath_eq (p : String) :
    normalizePath p = replaceBackslashes (jsJoin (ROOT_DIR :: parts2Of p)) := rfl

theorem mem_parts2Of (p : String) (x : String) (hx : x ∈ parts2Of p) :
    x ∈ partsOf p := by
  unfold parts2Of at hx
  split at hx
  · exact List.mem_of_mem_drop hx
  · exact hx

theorem partsOf_ne_empty_elem (p : String) (x : String) (hx : x ∈ partsOf p) :
    x ≠ "" := by
  unfold partsOf at hx
  have := List.of_mem_filter hx
  simpa using this

theorem partsOf_slash_free (p : String) (x : String) (hx : x ∈ partsOf p) :
    '/' ∉ x.data := by
  unfold partsOf at hx
  exact splitOnCharJS_no_sep '/' _ x (List.mem_of_mem_filter hx)

theorem partsOf_backslash_free (p : String) (x : String) (hx : x ∈ partsOf p) :
    '\\' ∉ x.data := by
  unfold partsOf at hx
  intro hc
  exact replaceBackslashes_no_backslash (jsNormalize p)
    (splitOnCharJS_chars_subset '/' _ x (List.mem_of_mem_filter hx) '\\' hc)

theorem partsOf_no_dotdot (p : String) (h : ".." ∉ segsAll p) :
    ".." ∉ partsOf p := by
  intro hx
  have hmem := List.mem_of_mem_filter hx
  rcases mem_segsAll_jsNormalize p ".." hmem with h1 | h1 | h1
  · exact absurd h1 (by decide)
  · exact absurd h1 (by decide)
  · exact h h1

/-- Splitting the final result of normalizePath: the root is prepended and
the remaining parts are kept, minus empty and dot segments. -/
theorem jsJoin_root_parts (q : List String)
    (hne : ∀ x ∈ q, x ≠ "")
    (hfree : ∀ x ∈ q, '/' ∉ x.data)
    (hdd : ".." ∉ q)
    (hbs : ∀ x ∈ q, '\\' ∉ x.data) :
    splitOnCharJS '/' (replaceBackslashes (jsJoin ("chaicode" :: q)))
      = "chaicode" :: q.filter keepSeg := by
  have hfilter : ("chaicode" :: q).filter (fun s => s ≠ "") = "chaicode" :: q := by
    apply List.filter_eq_self.mpr
    intro a ha
    rcases List.mem_cons.mp ha with h1 | h1
    · subst h1; decide
    · simpa using hne a h1
  have hfree2 : ∀ x ∈ "chaicode" :: q, '/' ∉ x.data := by
    intro x hx
    rcases List.mem_cons.mp hx with h1 | h1
    · subst h1; decide
    · exact hfree x h1
  have hsplitj : splitOnCharJS '/' (joinSlash ("chaicode" :: q)) = "chaicode" :: q :=
    splitOnCharJS_joinSlash _ (by simp) hfree2
  have hdata : (joinSlash ("chaicode" :: q)).data ≠ [] := by
    cases q with
    | nil => decide
    | cons b bs =>
      rw [joinSlash_cons_data _ _ (by simp)]
      simp
  have hjoined_ne : joinSlash ("chaicode" :: q) ≠ "" := by
    intro hcon
    exact hdata (by rw [hcon])
  have hhead : (joinSlash ("chaicode" :: q)).data.head? ≠ some '/' := by
    cases q with
    | nil => decide
    | cons b bs =>
      rw [joinSlash_cons_data _ _ (by simp)]
      intro hcon
      simp [show ("chaicode" : String).data = 'c' :: "haicode".data from rfl] at hcon
  have hdd2 : ".." ∉ "chaicode" :: q := by
    intro hcon
    rcases List.mem_cons.mp hcon with h1 | h1
    · exact absurd h1.symm (by decide)
    · exact hdd h1
  have hout : normalizeSegs false (splitOnCharJS '/' (joinSlash ("chaicode" :: q)))
      = "chaicode" :: q.filter keepSeg := by
    rw [hsplitj, normalizeSegs_no_dotdot false _ hdd2, List.filter_cons]
    simp [show keepSeg "chaicode" = true from by decide]
  rw [jsJoin_unfold, hfilter, if_neg hjoined_ne, jsNormalize_unfold,
    if_neg hhead, hout, if_neg (by simp)]
  have hbs2 : ∀ c ∈ (joinSlash ("chaicode" :: q.filter keepSeg)).data, ¬(c = '\\') := by
    intro c hc hcon
    subst hcon
    rcases joinSlash_chars _ _ hc with h1 | ⟨x, hx, hcx⟩
    · exact absurd h1 (by decide)
    · rcases List.mem_cons.mp hx with h1 | h1
      · subst h1
        exact absurd hcx (by decide)
      · exact hbs x (List.mem_of_mem_filter h1) hcx
  rw [replaceBackslashes_eq_self _ hbs2]
  apply splitOnCharJS_joinSlash _ (by simp)
  intro x hx
  rcases List.mem_cons.mp hx with h1 | h1
  · subst h1; decide
  · exact hfree x (List.mem_of_mem_filter h1)

/-- Core computation of normalizePath for inputs with no dot-dot segment:
the split of the result is the root followed by the kept parts. -/
theorem normalizePath_split (p : String) (h : ".." ∉ segsAll p) :
    splitOnCharJS '/' (normalizePath p)
      = "chaicode" :: (parts2Of p).filter keepSeg := by
  rw [normalizePath_eq]
  exact jsJoin_root_parts (parts2Of p)
    (fun x hx => partsOf_ne_empty_elem p x (mem_parts2Of p x hx))
    (fun x hx => partsOf_slash_free p x (mem_parts2Of p x hx))
    (fun hx => partsOf_no_dotdot p h (mem_parts2Of p ".." hx))
    (fun x hx => partsOf_backslash_free p x (mem_parts2Of p x hx))

theorem filter_keepSeg_nil_all_trivial (p : String)
    (hnil : (splitOnCharJS '/' p).filter keepSeg = []) :
    ∀ y ∈ segsAll p, y = "" ∨ y = "." := by
  intro y hy
  rw [segsAll_eq_flatMap] at hy
  rcases List.mem_flatMap.mp hy with ⟨x, hx, hyx⟩
  have hxk : ¬(keepSeg x = true) := by
    intro hk
    have : x ∈ (splitOnCharJS '/' p).filter keepSeg := List.mem_filter.mpr ⟨hx, hk⟩
    rw [hnil] at this
    simp at this
  have hx2 : x = "" ∨ x = "." := by
    by_contra hcon
    exact hxk (by simp [keepSeg, hcon])
  rcases hx2 with h1 | h1 <;> subst h1
  · have hseg : segsAll "" = [""] := by decide
    rw [hseg] at hyx
    simp at hyx
    exact Or.inl hyx
  · have hseg : segsAll "." = ["."] := by decide
    rw [hseg] at hyx
    simp at hyx
    exact Or.inr hyx

/-- If the first non-empty piece of a flat list of segment pieces is the
root name, the same holds after the empty and dot segments are filtered
out: dropped segments contribute only empty or dot pieces, and a dot piece
before the root would already contradict the hypothesis. -/
theorem head_filter_flatMap (l : List String)
    (h : ((l.flatMap segsAll).filter (fun x => x ≠ "")).head? = some "chaicode") :
    (((l.filter keepSeg).flatMap segsAll).filter (fun x => x ≠ "")).head?
      = some "chaicode" := by
  induction l with
  | nil => simp at h
  | cons s rest ih =>
    rw [List.flatMap_cons, List.filter_append, List.head?_append] at h
    cases hcase : ((segsAll s).filter (fun x => x ≠ "")).head? with
    | none =>
      rw [hcase] at h
      simp only [Option.or] at h
      have hnil : (segsAll s).filter (fun x => x ≠ "") = [] := by
        cases hc2 : (segsAll s).filter (fun x => x ≠ "") with
        | nil => rfl
        | cons z zs => rw [hc2] at hcase; simp at hcase
      by_cases hk : keepSeg s = true
      · rw [List.filter_cons_of_pos hk, List.flatMap_cons, List.filter_append,
          hnil, List.nil_append]
        exact ih h
      · rw [List.filter_cons_of_neg (by simpa using hk)]
        exact ih h
    | some y =>
      rw [hcase] at h
      have hy : y = "chaicode" := by simpa [Option.or] using h
      subst hy
      have hkeep : keepSeg s = true := by
        by_contra hk
        have hs2 : s = "" ∨ s = "." := by
          by_contra hcon
          exact hk (by simp [keepSeg, hcon])
        rcases hs2 with h1 | h1 <;> subst h1
        · have hseg : segsAll "" = [""] := by decide
          rw [hseg] at hcase
          simp at hcase
        · have hseg : segsAll "." = ["."] := by decide
          rw [hseg] at hcase
          have : (["."].filter (fun x => x ≠ "")) = ["."] := by decide
          rw [this] at hcase
          simp at hcase
      rw [List.filter_cons_of_pos hkeep, List.flatMap_cons, List.filter_append,
        List.head?_append, hcase]
      simp

/-- If the first non-empty slash-or-backslash segment of the input is the
root name, the first part computed inside normalizePath is the root name. -/
theorem partsOf_head (p : String) (h : ".." ∉ segsAll p)
    (h2 : ((segsAll p).filter (fun x => x ≠ "")).head? = some "chaicode") :
    (partsOf p).head? = some "chaicode" := by
  have hdd := no_dotdot_split p h
  unfold partsOf
  rw [jsNormalize_unfold, normalizeSegs_no_dotdot true _ hdd,
    normalizeSegs_no_dotdot false _ hdd]
  cases hcase : (splitOnCharJS '/' p).filter keepSeg with
  | nil =>
    exfalso
    have hchai : "chaicode" ∈ (segsAll p).filter (fun x => x ≠ "") :=
      head?_some_mem _ _ h2
    rcases filter_keepSeg_nil_all_trivial p hcase "chaicode"
        (List.mem_of_mem_filter hchai) with h1 | h1 <;>
      exact absurd h1 (by decide)
  | cons a rest =>
    have hgoal : ((segsAll (joinSlash (a :: rest))).filter
        (fun x => x ≠ "")).head? = some "chaicode" := by
      rw [segsAll_joinSlash _ (by simp), ← hcase]
      exact head_filter_flatMap _ (by rw [← segsAll_eq_flatMap]; exact h2)
    by_cases habs : p.data.head? = some '/'
    · rw [if_pos habs, segsAll_slash_prepend, List.filter_cons_of_neg (by simp)]
      exact hgoal
    · rw [if_neg habs, if_neg (by simp)]
      exact hgoal

/-- C1 (counterexample): the path-confinement claim fails on the input
"..": normalizePath ".." evaluates to ".", whose first segment is not the
configured root "chaicode". -/
theorem C1_counterexample :
    normalizePath ".." = "." ∧
      ¬((splitOnCharJS '/' (normalizePath "..")).head? = some "chaicode") := by
  constructor
  · decide
  · decide

/-- C1 (amended): for every input path p none of whose slash-or-backslash
separated segments is "..", normalizePath p returns a path whose first
segment is the configured root directory name "chaicode"; with a leading
".." segment the root can be cancelled and the result escapes. -/
theorem C1_theorem (p : String) (h : ".." ∉ segsAll p) :
    (splitOnCharJS '/' (normalizePath p)).head? = some "chaicode" := by
  rw [normalizePath_split p h]
  rfl

/-- C1 (witness): the amended theorem applied at the concrete input
"a/b". -/
theorem C1_witness :
    (".." ∉ segsAll "a/b") ∧
      (splitOnCharJS '/' (normalizePath "a/b")).head? = some "chaicode" :=
  ⟨by decide, C1_theorem "a/b" (by decide)⟩

/-- C9 (counterexample): the double-prefix claim fails on "chaicode/..",
whose first non-empty segment is "chaicode" while the result "chaicode"
does not have two leading "chaicode" segments. -/
theorem C9_counterexample :
    ((splitOnCharJS '/' "chaicode/..").filter (fun x => x ≠ "")).head?
        = some "chaicode" ∧
      normalizePath "chaicode/.." = "chaicode" ∧
      ¬((splitOnCharJS '/' (normalizePath "chaicode/..")).take 2
        = ["chaicode", "chaicode"]) := by
  refine ⟨by decide, by decide, by decide⟩

/-- C9 (amended): for every input path with no ".." segment whose first
non-empty slash-or-backslash segment is already the root name "chaicode",
normalizePath re-prefixes the root anyway, so the result starts with two
"chaicode" segments; moreover normalizePath is not idempotent, as witnessed
by "chaicode/x". -/
theorem C9_theorem :
    (∀ p : String, ".." ∉ segsAll p →
      ((segsAll p).filter (fun x => x ≠ "")).head? = some "chaicode" →
      (splitOnCharJS '/' (normalizePath p)).take 2 = ["chaicode", "chaicode"]) ∧
    normalizePath (normalizePath "chaicode/x") ≠ normalizePath "chaicode/x" := by
  constructor
  · intro p h h2
    have hhead := partsOf_head p h h2
    have hcons := eq_cons_of_head? _ _ hhead
    have hidx : (partsOf p).indexOf "chaicode" = 0 := by
      rw [hcons]
      exact List.indexOf_cons_self _ _
    have hparts2 : parts2Of p = partsOf p := by
      unfold parts2Of
      rw [hidx]
      simp
    rw [normalizePath_split p h, hparts2, hcons, List.filter_cons_of_pos (by decide)]
    rfl
  · decide

/-- C9 (witness): the amended universal statement applied at the concrete
input "chaicode/x". -/
theorem C9_witness :
    (".." ∉ segsAll "chaicode/x") ∧
      (splitOnCharJS '/' (normalizePath "chaicode/x")).take 2
        = ["chaicode", "chaicode"] :=
  ⟨by decide, C9_theorem.1 "chaicode/x" (by decide) (by decide)⟩

theorem fsGet_fsSet_self (fs : List (String × String)) (p c : String) :
    fsGet (fsSet fs p c) p = some c := by
  induction fs with
  | nil => simp [fsSet, fsGet]
  | cons pr rest ih =>
    by_cases h : pr.1 = p
    · simp [fsSet, fsGet, h]
    · simp [fsSet, fsGet, h]
      exact ih

/-- C5 (confirmed): materializing an absent file reports created and
writes the content; a second call with identical content reports unchanged
and leaves the filesystem untouched; a third call with different content
reports updated and overwrites. -/
theorem C5_theorem (fs : List (String × String)) (p c c2 : String)
    (habs : fsGet fs (normalizePath p) = none) (hne : ¬(c2 = c)) :
    (createDynamicFile fs p c).1
        = "File " ++ normalizePath p ++ " created successfully" ∧
      fsGet (createDynamicFile fs p c).2 (normalizePath p) = some c ∧
      (createDynamicFile (createDynamicFile fs p c).2 p c).1
        = "File " ++ normalizePath p ++ " unchanged (content identical)" ∧
      (createDynamicFile (createDynamicFile fs p c).2 p c).2
        = (createDynamicFile fs p c).2 ∧
      (createDynamicFile (createDynamicFile fs p c).2 p c2).1
        = "File " ++ normalizePath p ++ " updated successfully" ∧
      fsGet (createDynamicFile (createDynamicFile fs p c).2 p c2).2 (normalizePath p)
        = some c2 := by
  have h1 : createDynamicFile fs p c
      = ("File " ++ normalizePath p ++ " created successfully",
          fsSet fs (normalizePath p) c) := by
    simp only [createDynamicFile, habs]
  have h2 : createDynamicFile (fsSet fs (normalizePath p) c) p c
      = ("File " ++ normalizePath p ++ " unchanged (content identical)",
          fsSet fs (normalizePath p) c) := by
    simp [createDynamicFile, fsGet_fsSet_self]
  have h3 : createDynamicFile (fsSet fs (normalizePath p) c) p c2
      = ("File " ++ normalizePath p ++ " updated successfully",
          fsSet (fsSet fs (normalizePath p) c) (normalizePath p) c2) := by
    have hncc : ¬(c = c2) := fun hcc => hne hcc.symm
    simp [createDynamicFile, fsGet_fsSet_self, hncc]
  rw [h1]
  refine ⟨rfl, fsGet_fsSet_self fs (normalizePath p) c, ?_, ?_, ?_, ?_⟩
  · rw [h2]
  · rw [h2]
  · rw [h3]
  · rw [h3]
    exact fsGet_fsSet_self _ (normalizePath p) c2

/-- C5 (witness): the idempotence triple applied at a concrete path and
contents against an empty filesystem. -/
theorem C5_witness :
    (fsGet [] (normalizePath "app/x.txt") = none) ∧ ¬("bye" = "hi") ∧
      (createDynamicFile [] "app/x.txt" "hi").1
        = "File " ++ normalizePath "app/x.txt" ++ " created successfully" ∧
      (createDynamicFile (createDynamicFile [] "app/x.txt" "hi").2 "app/x.txt" "hi").1
        = "File " ++ normalizePath "app/x.txt" ++ " unchanged (content identical)" ∧
      (createDynamicFile (createDynamicFile [] "app/x.txt" "hi").2 "app/x.txt" "bye").1
        = "File " ++ normalizePath "app/x.txt" ++ " updated successfully" := by
  have h := C5_theorem [] "app/x.txt" "hi" "bye" (by rfl) (by decide)
  exact ⟨rfl, by decide, h.1, h.2.2.1, h.2.2.2.2.1⟩

theorem finalizeStep_halt (st : RunState) (evs : List Event) (sv : Option String)
    (st3 : RunState) (evs3 : List Event) (o : RunOutcome)
    (h : finalizeStep st evs sv = .halt st3 evs3 o) :
    o = .done ∧ evs3 = evs ∧ st3.g.proposedStructure = [] ∧
      st3.g.projectType = none ∧ st3.g.projectName = none := by
  unfold finalizeStep at h
  split at h
  · simp only [StepOut.halt.injEq] at h
    rcases h with ⟨h1, h2, h3⟩
    subst h1
    subst h2
    subst h3
    exact ⟨rfl, rfl, rfl, rfl, rfl⟩
  · simp at h

theorem overrideBlock_halt (st : RunState) (d : JsonVal)
    (st2 : RunState) (evs2 : List Event) (o : RunOutcome)
    (h : overrideBlock st d = some (.halt st2 evs2 o)) : o = .stuck := by
  simp only [overrideBlock] at h
  repeat' split at h
  all_goals simp_all

theorem afterGate_halt (u : String) (st : RunState) (evs : List Event)
    (d : JsonVal) (st3 : RunState) (evs3 : List Event) (o : RunOutcome)
    (h : afterGate u st evs d = .halt st3 evs3 o) :
    o = .stuck ∨
      (o = .done ∧ st3.g.proposedStructure = [] ∧ st3.g.projectType = none ∧
        st3.g.projectName = none) := by
  unfold afterGate at h
  cases hq : overrideBlock st d with
  | none =>
    rw [hq] at h
    rcases finalizeStep_halt _ _ _ _ _ _ h with ⟨h1, _, h3, h4, h5⟩
    exact Or.inr ⟨h1, h3, h4, h5⟩
  | some so =>
    cases so with
    | halt st4 evs4 o4 =>
      rw [hq] at h
      simp only [StepOut.halt.injEq] at h
      have ho4 := overrideBlock_halt st d st4 evs4 o4 hq
      exact Or.inl (h.2.2 ▸ ho4)
    | cont st4 evs4 =>
      rw [hq] at h
      rcases finalizeStep_halt _ _ _ _ _ _ h with ⟨h1, _, h3, h4, h5⟩
      exact Or.inr ⟨h1, h3, h4, h5⟩

theorem afterDispatch_halt (u : String) (st : RunState) (evs : List Event)
    (d : JsonVal) (st3 : RunState) (evs3 : List Event) (o : RunOutcome)
    (h : afterDispatch u st evs d = .halt st3 evs3 o) :
    (o = .rejected → ∃ strc ans, evs3.getLast? = some (.gateAsked strc ans false)) ∧
      (o = .done → st3.g.proposedStructure = [] ∧ st3.g.projectType = none ∧
        st3.g.projectName = none) := by
  simp only [afterDispatch] at h
  by_cases hc : asStr (jget d "step") = some "generate_structure" ∧
      st.g.proposedStructure ≠ [] ∧ st.isUpdateRequest = false ∧
      st.isExecutionRequest = false
  · rw [if_pos hc] at h
    cases ha : st.answers with
    | nil =>
      rw [ha] at h
      simp only [StepOut.halt.injEq] at h
      refine ⟨fun ho => ?_, fun ho => ?_⟩ <;> simp_all
    | cons a rest =>
      rw [ha] at h
      by_cases happ : presentStructureApproved a = true
      · simp only [happ, if_true] at h
        rcases afterGate_halt _ _ _ _ _ _ _ h with h1 | ⟨h1, h2, h3, h4⟩
        · refine ⟨fun ho => ?_, fun ho => ?_⟩ <;> simp_all
        · refine ⟨fun ho => ?_, fun ho => ?_⟩ <;> simp_all
      · have happf : presentStructureApproved a = false := by
          revert happ
          cases presentStructureApproved a <;> simp
        simp only [happf, Bool.false_eq_true, if_false, StepOut.halt.injEq] at h
        rcases h with ⟨h1, h2, h3⟩
        refine ⟨fun ho => ?_, fun ho => ?_⟩
        · refine ⟨st.g.proposedStructure, a, ?_⟩
          rw [← h2, List.getLast?_append]
          rfl
        · simp_all
  · rw [if_neg hc] at h
    rcases afterGate_halt _ _ _ _ _ _ _ h with h1 | ⟨h1, h2, h3, h4⟩
    · exact ⟨fun ho => by simp_all, fun ho => by simp_all⟩
    · exact ⟨fun ho => by simp_all, fun ho => by simp_all⟩

theorem halt_triv (stA : RunState) (evsA : List Event) (o0 : RunOutcome)
    (st3 : RunState) (evs3 : List Event) (o : RunOutcome)
    (h : StepOut.halt stA evsA o0 = .halt st3 evs3 o)
    (h1 : ¬(o0 = .rejected)) (h2 : ¬(o0 = .done)) :
    (o = .rejected → ∃ strc ans, evs3.getLast? = some (.gateAsked strc ans false)) ∧
      (o = .done → st3.g.proposedStructure = [] ∧ st3.g.projectType = none ∧
        st3.g.projectName = none) := by
  simp only [StepOut.halt.injEq] at h
  rcases h with ⟨_, _, h3⟩
  subst h3
  exact ⟨fun ho => absurd ho h1, fun ho => absurd ho h2⟩

theorem runStepRest_none (u : String) (st : RunState) (d : JsonVal)
    (hf : declaredFn d = none) :
    runStepRest u st d = afterDispatch u st [] d := by
  unfold runStepRest
  rw [hf]

theorem runStepRest_some (u : String) (st : RunState) (d : JsonVal) (fn : String)
    (hf : declaredFn d = some fn) :
    runStepRest u st d =
      match dispatchTool st fn (jget d "args") with
      | .threw => .halt st [] .errorCaught
      | .noOracle => .halt st [] .stuck
      | .ok st2 resultText =>
        afterDispatch u { st2 with g := pushTurn st2.g "user" resultText }
          [.dispatched fn, .toolResult resultText] d := by
  unfold runStepRest
  rw [hf]

theorem runStepRest_halt (u : String) (st : RunState) (d : JsonVal)
    (st3 : RunState) (evs3 : List Event) (o : RunOutcome)
    (h : runStepRest u st d = .halt st3 evs3 o) :
    (o = .rejected → ∃ strc ans, evs3.getLast? = some (.gateAsked strc ans false)) ∧
      (o = .done → st3.g.proposedStructure = [] ∧ st3.g.projectType = none ∧
        st3.g.projectName = none) := by
  cases hf : declaredFn d with
  | none =>
    rw [runStepRest_none u st d hf] at h
    exact afterDispatch_halt _ _ _ _ _ _ _ h
  | some fn =>
    rw [runStepRest_some u st d fn hf] at h
    cases hd : dispatchTool st fn (jget d "args") with
    | threw =>
      rw [hd] at h
      exact halt_triv _ _ _ _ _ _ h (by simp) (by simp)
    | noOracle =>
      rw [hd] at h
      exact halt_triv _ _ _ _ _ _ h (by simp) (by simp)
    | ok st2 resultText =>
      rw [hd] at h
      exact afterDispatch_halt _ _ _ _ _ _ _ h

theorem runStepBody_halt (u : String) (st : RunState) (d : JsonVal)
    (st3 : RunState) (evs3 : List Event) (o : RunOutcome)
    (h : runStepBody u st d = .halt st3 evs3 o) :
    (o = .rejected → ∃ strc ans, evs3.getLast? = some (.gateAsked strc ans false)) ∧
      (o = .done → st3.g.proposedStructure = [] ∧ st3.g.projectType = none ∧
        st3.g.projectName = none) := by
  simp only [runStepBody] at h
  by_cases han : asStr (jget d "step") = some "analyze"
  · rw [if_pos han] at h
    cases hc : jget d "content" with
    | none =>
      rw [hc] at h
      exact halt_triv _ _ _ _ _ _ h (by simp) (by simp)
    | some v =>
      rw [hc] at h
      cases v with
      | str content => exact runStepRest_halt _ _ _ _ _ _ h
      | null => exact halt_triv _ _ _ _ _ _ h (by simp) (by simp)
      | bool b => exact halt_triv _ _ _ _ _ _ h (by simp) (by simp)
      | num lx => exact halt_triv _ _ _ _ _ _ h (by simp) (by simp)
      | arr l => exact halt_triv _ _ _ _ _ _ h (by simp) (by simp)
      | obj l => exact halt_triv _ _ _ _ _ _ h (by simp) (by simp)
  · rw [if_neg han] at h
    exact runStepRest_halt _ _ _ _ _ _ h

theorem runStep_halt (u : String) (st : RunState) (reply : Option String)
    (st3 : RunState) (evs3 : List Event) (o : RunOutcome)
    (h : runStep u st reply = .halt st3 evs3 o) :
    (o = .rejected → ∃ strc ans, evs3.getLast? = some (.gateAsked strc ans false)) ∧
      (o = .done → st3.g.proposedStructure = [] ∧ st3.g.projectType = none ∧
        st3.g.projectName = none) := by
  cases reply with
  | none =>
    simp only [runStep] at h
    exact halt_triv _ _ _ _ _ _ h (by simp) (by simp)
  | some response =>
    simp only [runStep] at h
    cases hp : jsonParse (cleanResponse response) with
    | none =>
      rw [hp] at h
      exact halt_triv _ _ _ _ _ _ h (by simp) (by simp)
    | some dataObj =>
      rw [hp] at h
      cases dataObj with
      | null => exact halt_triv _ _ _ _ _ _ h (by simp) (by simp)
      | bool b => exact runStepBody_halt _ _ _ _ _ _ h
      | num lx => exact runStepBody_halt _ _ _ _ _ _ h
      | str s2 => exact runStepBody_halt _ _ _ _ _ _ h
      | arr l => exact runStepBody_halt _ _ _ _ _ _ h
      | obj l => exact runStepBody_halt _ _ _ _ _ _ h

theorem runLoop_halt (u : String) (st : RunState) (replies : List (Option String))
    (st2 : RunState) (evs : List Event) (o : RunOutcome)
    (h : runLoop u st replies = (st2, evs, o)) :
    (o = .rejected → ∃ strc ans, evs.getLast? = some (.gateAsked strc ans false)) ∧
      (o = .done → st2.g.proposedStructure = [] ∧ st2.g.projectType = none ∧
        st2.g.projectName = none) := by
  induction replies generalizing st evs with
  | nil =>
    unfold runLoop at h
    simp only [Prod.mk.injEq] at h
    refine ⟨fun ho => ?_, fun ho => ?_⟩ <;> simp_all
  | cons reply rest ih =>
    unfold runLoop at h
    split at h
    · simp only [Prod.mk.injEq] at h
      rcases h with ⟨h1, h2, h3⟩
      subst h1; subst h2; subst h3
      exact runStep_halt _ _ _ _ _ _ (by assumption)
    · simp only [Prod.mk.injEq] at h
      rcases h with ⟨h1, h2, h3⟩
      subst h1
      subst h3
      have ihr := ih _ _ rfl
      refine ⟨fun ho => ?_, fun ho => ihr.2 ho⟩
      rcases ihr.1 ho with ⟨strc, ans, hlast⟩
      refine ⟨strc, ans, ?_⟩
      rw [← h2, List.getLast?_append, hlast]
      rfl

/-- C2 (counterexample): the step-reply parse succeeds on a reply whose
step value bogus lies outside the five-member enum, and the run does not
abort there: it continues to the next iteration and merely runs out of
scripted replies. -/
theorem C2_counterexample :
    (jsonParse (cleanResponse bogusStepReply)).isSome = true ∧
      (jsonParse (cleanResponse bogusStepReply)).bind (fun v => asStr (jget v "step"))
        = some "bogus" ∧
      ("bogus" ∈ stepEnum) = False ∧
      (runAgent initialGlobal bogusRun).2.2 = RunOutcome.outOfReplies := by
  refine ⟨by rfl, by rfl, by decide, by decide⟩

/-- C2 (amended): the step-reply parser validates only JSON well-formedness,
not the step enum: a reply whose cleaned text fails JSON.parse aborts the
run via the catch path, while a well-formed reply with an out-of-enum step
value is processed and the run continues. -/
theorem C2_theorem :
    (∀ (response : String) (userMsg : String) (st : RunState),
      jsonParse (cleanResponse response) = none →
      runStep userMsg st (some response) = .halt st [] .errorCaught) ∧
    (runAgent initialGlobal bogusRun).2.2 = RunOutcome.outOfReplies := by
  constructor
  · intro response userMsg st h
    simp [runStep, h]
  · decide

/-- C2 (witness): the abort half of the amended claim applied to a
concrete malformed reply. -/
theorem C2_witness :
    jsonParse (cleanResponse "not json") = none ∧
      runStep "hi" (mkRunState initialGlobal) (some "not json")
        = .halt (mkRunState initialGlobal) [] .errorCaught :=
  ⟨by rfl, C2_theorem.1 "not json" "hi" _ (by rfl)⟩

/-- C3 (code bug): in an update run with a resolved updateFile, the
backend-declared function of the generate_files step is dispatched anyway (the
dispatch block precedes the override), and the materialization forced by the
override never writes updateFile: the override calls the
single-record materializer with a one-element args array, whose fileName
access fails, so only an error outcome is logged and the filesystem keeps
no file at the confined path. -/
theorem C3_theorem :
    jsonParse (cleanResponse genFilesRdReply) = some genFilesRdObj ∧
      isCont (runStepRest "fix the style" updateStepState genFilesRdObj) = true ∧
      (stepOutEvents (runStepRest "fix the style" updateStepState genFilesRdObj)).head?
        = some (Event.dispatched "read_directory") ∧
      Event.overrideRegen "todo-app/style.css"
        ∈ stepOutEvents (runStepRest "fix the style" updateStepState genFilesRdObj) ∧
      Event.toolResult (jsonStringify (.str "Error creating/updating file: TypeError"))
        ∈ stepOutEvents (runStepRest "fix the style" updateStepState genFilesRdObj) ∧
      fsGet (stepOutState
          (runStepRest "fix the style" updateStepState genFilesRdObj)).g.fs
        (normalizePath "todo-app/style.css") = none := by
  refine ⟨by rfl, by decide, by decide, by decide, by decide, by decide⟩

/-- C6 (confirmed): a user message containing the word fix (compared on
the lowercased text) makes the initialization step classify the run as an
update request, and in such a run the Scenario B analyze content resolves
updateFile to todo-app/style.css. -/
theorem C6_theorem :
    (∀ (userMsg : String) (st : RunState),
      includesS (jsToLower userMsg) "fix" = true →
      (classifyInit userMsg st).isUpdateRequest = true) ∧
    (∀ st : RunState, st.isUpdateRequest = true →
      (applyAnalyze scenarioBContent st).updateFile = some "todo-app/style.css") := by
  constructor
  · intro userMsg st h
    simp [classifyInit, h]
  · intro st h
    have he : extractUpdateFile scenarioBContent = some "todo-app/style.css" := by decide
    simp [applyAnalyze, h, he]

/-- C6 (witness): both halves applied at a concrete message and state. -/
theorem C6_witness :
    includesS (jsToLower "please fix it") "fix" = true ∧
      (classifyInit "please fix it" (mkRunState initialGlobal)).isUpdateRequest
        = true ∧
      (applyAnalyze scenarioBContent
        { mkRunState initialGlobal with isUpdateRequest := true }).updateFile
        = some "todo-app/style.css" :=
  ⟨by decide, C6_theorem.1 "please fix it" _ (by decide), C6_theorem.2 _ rfl⟩

/-- C8 (counterexample): generateProjectStructure can return JSON text
that is not an object carrying a structure field and is not the empty
object: a backend reply of a bare array is passed through unchanged. -/
theorem C8_counterexample :
    generateProjectStructure (some "[]") = "[]" ∧
      (jsonParse (generateProjectStructure (some "[]"))).bind
        (fun v => jget v "structure") = none ∧
      ¬(generateProjectStructure (some "[]") = "\x7b\x7d") := by
  refine ⟨by rfl, by rfl, by decide⟩

/-- C8 (amended): generateProjectStructure never raises and always returns
text that parses as JSON: the cleaned backend text whenever that parses
(regardless of its shape), and the empty object on a network failure or a
parse failure. -/
theorem C8_theorem (raw : Option String) :
    (jsonParse (generateProjectStructure raw)).isSome = true ∧
      (raw = none → generateProjectStructure raw = "\x7b\x7d") ∧
      (∀ s, raw = some s → jsonParse (cleanStructureText s) = none →
        generateProjectStructure raw = "\x7b\x7d") := by
  cases raw with
  | none =>
    refine ⟨by decide, fun _ => rfl, ?_⟩
    intro s hs
    exact absurd hs (by simp)
  | some s =>
    have hmain : (jsonParse (generateProjectStructure (some s))).isSome = true := by
      unfold generateProjectStructure
      cases h : jsonParse (cleanStructureText s) with
      | none =>
        simp only [h]
        decide
      | some v => simp [h]
    refine ⟨hmain, ?_, ?_⟩
    · intro h
      exact absurd h (by simp)
    · intro s2 hs2 hparse
      have hss : s = s2 := by injection hs2
      subst hss
      unfold generateProjectStructure
      simp [hparse]

/-- C8 (witness): the amended claim applied to a concrete unparsable
backend reply. -/
theorem C8_witness :
    jsonParse (cleanStructureText "xyz") = none ∧
      generateProjectStructure (some "xyz") = "\x7b\x7d" ∧
      (jsonParse (generateProjectStructure (some "xyz"))).isSome = true :=
  ⟨by rfl, (C8_theorem (some "xyz")).2.2 "xyz" rfl (by rfl),
    (C8_theorem (some "xyz")).1⟩

/-- C4 (counterexample): after a run aborted by structure rejection, the
module-level context is not discarded: the next run starts with the stale
proposed structure, which is observable because the approval
gate of the next run presents exactly that stale list. -/
theorem C4_counterexample :
    (runAgent initialGlobal rejectedNewProjectRun).2.2 = RunOutcome.rejected ∧
      (runAgent initialGlobal rejectedNewProjectRun).1.proposedStructure
        = ["chaicode/todo-app/index.html"] ∧
      Event.gateAsked ["chaicode/todo-app/index.html"] "no" false
        ∈ (runAgent (runAgent initialGlobal rejectedNewProjectRun).1 followUpRun).2.1 := by
  refine ⟨by decide, by decide, by decide⟩

/-- C4 (amended): the per-run locals are fresh each run, but the
module-level ProjectContext (projectType, projectName, proposedStructure)
is reset only when a run reaches final_result; a run that aborts leaves it
in place, observable in the next run. -/
theorem C4_theorem :
    (∀ (g : GlobalState) (input : RunInput) (st2 : GlobalState) (evs : List Event),
      runAgent g input = (st2, evs, RunOutcome.done) →
      st2.proposedStructure = [] ∧ st2.projectType = none ∧ st2.projectName = none) ∧
      ¬((runAgent initialGlobal rejectedNewProjectRun).1.proposedStructure = []) := by
  constructor
  · intro g input st2 evs h
    have heq : runAgent g input
        = ((runLoop input.userMsg (runStartState g input) input.replies).1.g,
            (runLoop input.userMsg (runStartState g input) input.replies).2.1,
            (runLoop input.userMsg (runStartState g input) input.replies).2.2) := rfl
    rw [heq] at h
    have h1 : (runLoop input.userMsg (runStartState g input) input.replies).1.g = st2 :=
      congrArg (fun t => t.1) h
    have h3 : (runLoop input.userMsg (runStartState g input) input.replies).2.2
        = RunOutcome.done := congrArg (fun t => t.2.2) h
    have hl := runLoop_halt input.userMsg (runStartState g input) input.replies
      (runLoop input.userMsg (runStartState g input) input.replies).1
      (runLoop input.userMsg (runStartState g input) input.replies).2.1
      (runLoop input.userMsg (runStartState g input) input.replies).2.2 rfl
    rcases hl.2 h3 with ⟨ha, hb, hc⟩
    exact ⟨h1 ▸ ha, h1 ▸ hb, h1 ▸ hc⟩
  · decide

/-- C4 (witness): the reset half applied to a concrete run that reaches
final_result, together with the concrete persistence fact. -/
theorem C4_witness :
    (runAgent initialGlobal doneRun).2.2 = RunOutcome.done ∧
      (runAgent initialGlobal doneRun).1.proposedStructure = [] ∧
      (runAgent initialGlobal doneRun).1.projectType = none ∧
      (runAgent initialGlobal doneRun).1.projectName = none := by
  have hdone : (runAgent initialGlobal doneRun).2.2 = RunOutcome.done := by decide
  have happ := C4_theorem.1 initialGlobal doneRun
    (runAgent initialGlobal doneRun).1 (runAgent initialGlobal doneRun).2.1
    (by rw [← hdone])
  exact ⟨hdone, happ.1, happ.2.1, happ.2.2⟩

/-- C7 (counterexample): the approval predicate is not a bare
case-insensitive comparison (it trims first, so the answer with spaces
around yes approves although it is not case-insensitively equal to yes),
and a run in which the gate rejects can still contain an earlier
create_dynamic_file dispatch, declared by the analyze step. -/
theorem C7_counterexample :
    presentStructureApproved " yes " = true ∧
      ¬(jsToLower " yes " = "yes") ∧
      Event.dispatched "create_dynamic_file"
        ∈ (runAgent initialGlobal rejectedNewProjectRun).2.1 ∧
      (runAgent initialGlobal rejectedNewProjectRun).2.2 = RunOutcome.rejected := by
  refine ⟨by decide, by decide, by decide, by decide⟩

/-- C7 (amended): the gate approves exactly when the trimmed, lowercased
answer is yes; a rejection at the generate_structure step aborts the run
at once, so the rejected gate interaction is the last event of the run and
in particular no create_dynamic_file dispatch happens after it (one may
already have happened before it). -/
theorem C7_theorem :
    (∀ answer : String,
      presentStructureApproved answer = true ↔ jsToLower (jsTrim answer) = "yes") ∧
    (∀ (u : String) (st : RunState) (replies : List (Option String))
      (st2 : RunState) (evs : List Event),
      runLoop u st replies = (st2, evs, RunOutcome.rejected) →
      ∃ strc ans, evs.getLast? = some (Event.gateAsked strc ans false)) := by
  constructor
  · intro answer
    simp [presentStructureApproved]
  · intro u st replies st2 evs h
    exact (runLoop_halt u st replies st2 evs RunOutcome.rejected h).1 rfl

/-- C7 (witness): both halves applied at concrete inputs: an uppercase
yes approves, and the rejected scripted run ends in a rejected gate
event. -/
theorem C7_witness :
    presentStructureApproved "YES" = true ∧
      ∃ strc ans,
        ((runLoop "Create a to-do list in HTML"
            (runStartState initialGlobal rejectedNewProjectRun)
            rejectedNewProjectRun.replies).2.1).getLast?
          = some (Event.gateAsked strc ans false) := by
  have hrej : (runLoop "Create a to-do list in HTML"
      (runStartState initialGlobal rejectedNewProjectRun)
      rejectedNewProjectRun.replies).2.2 = RunOutcome.rejected := by decide
  exact ⟨(C7_theorem.1 "YES").mpr (by decide),
    C7_theorem.2 "Create a to-do list in HTML"
      (runStartState initialGlobal rejectedNewProjectRun)
      rejectedNewProjectRun.replies _ _ (by rw [← hrej])⟩

/-- C10 (counterexample): the original claim fails.  The declared name
constructor is not one of the four registry keys, yet the run is not left
untouched: the bracketed lookup at line 522 walks the prototype chain and
is truthy, the dispatch block is entered with an undefined tool function
which line 554 then invokes, and the caught TypeError aborts the run
instead of continuing the workflow. -/
theorem C10_counterexample :
    ¬("constructor" ∈ available_tools_keys) ∧
      declaredFn (JsonVal.obj [("step", .str "analyze"),
          ("content", .str "a"), ("function", .str "constructor"),
          ("args", .null)]) = some "constructor" ∧
      (runAgent initialGlobal constructorRun).2.2 = RunOutcome.errorCaught := by
  exact ⟨by decide, by decide, by decide⟩

/-- C10 (corrected): a step record declaring a function name that is
neither a registry key nor a property name inherited from Object.prototype
is silently skipped — no tool runs, no event is emitted, no tool-result
turn is appended (the conversation grows only by the proceed turn), the run
does not abort and the loop continues, provided the step is not
final_result and neither the gate nor the update override fires on this
step independently; whereas a declared name outside the registry that
Object.prototype does provide passes the truthy lookup with an undefined
tool function, and the resulting TypeError is caught and aborts the run
with no tool call and no event. -/
theorem C10_theorem (u : String) (st : RunState) (dataObj : JsonVal) (fn : String)
    (h1 : jget dataObj "function" = some (.str fn))
    (h2 : ¬(fn ∈ available_tools_keys))
    (h3 : ¬(asStr (jget dataObj "step") = some "final_result"))
    (h4 : ¬(asStr (jget dataObj "step") = some "generate_structure" ∧
      st.g.proposedStructure ≠ [] ∧ st.isUpdateRequest = false ∧
      st.isExecutionRequest = false))
    (h5 : ¬(asStr (jget dataObj "step") = some "generate_files" ∧
      st.isUpdateRequest = true)) :
    (¬(fn ∈ object_prototype_keys) →
      runStepRest u st dataObj
        = .cont { st with g := pushTurn st.g "user" "Proceed to next step" } [])
    ∧ (fn ∈ object_prototype_keys →
      runStepRest u st dataObj = .halt st [] .errorCaught) := by
  constructor
  · intro h2p
    have hf : declaredFn dataObj = none := by
      unfold declaredFn
      rw [h1]
      exact if_neg (fun hcc => hcc.2.elim h2 h2p)
    rw [runStepRest_none u st dataObj hf]
    simp only [afterDispatch]
    rw [if_neg h4]
    simp only [afterGate]
    have hov : overrideBlock st dataObj = none := by
      simp only [overrideBlock]
      rw [if_neg h5]
    rw [hov]
    show finalizeStep st []
        (asStr (jget dataObj "step"))
        = .cont { st with g := pushTurn st.g "user" "Proceed to next step" } []
    simp only [finalizeStep]
    rw [if_neg h3]
  · intro hp
    have hne : ¬(fn = "") := fun he => by
      rw [he] at hp
      exact absurd hp (by decide)
    have hf : declaredFn dataObj = some fn := by
      unfold declaredFn
      rw [h1]
      exact if_pos ⟨hne, Or.inr hp⟩
    rw [runStepRest_some u st dataObj fn hf]
    have hd : dispatchTool st fn (jget dataObj "args") = .threw := by
      unfold dispatchTool
      rw [if_neg (fun he => h2 (by rw [he]; decide)),
        if_neg (fun he => h2 (by rw [he]; decide)),
        if_neg (fun he => h2 (by rw [he]; decide)),
        if_neg (fun he => h2 (by rw [he]; decide))]
    rw [hd]

/-- C10 (witness): both branches at concrete inputs — the silent skip for
the unknown tool make_coffee, and the aborting TypeError for the inherited
name valueOf. -/
theorem C10_witness :
    (runStepRest "hi" (mkRunState initialGlobal)
        (JsonVal.obj [("step", .str "analyze"), ("content", .str "c"),
          ("function", .str "make_coffee"), ("args", .null)])
      = .cont { mkRunState initialGlobal with
                  g := pushTurn (mkRunState initialGlobal).g "user"
                    "Proceed to next step" } [])
    ∧ (runStepRest "hi" (mkRunState initialGlobal)
        (JsonVal.obj [("step", .str "analyze"), ("content", .str "c"),
          ("function", .str "valueOf"), ("args", .null)])
      = .halt (mkRunState initialGlobal) [] .errorCaught) :=
  ⟨( C10_theorem "hi" (mkRunState initialGlobal)
      (JsonVal.obj [("step", .str "analyze"), ("content", .str "c"),
        ("function", .str "make_coffee"), ("args", .null)]) "make_coffee"
      rfl (by decide) (by decide) (by decide) (by decide)).1 (by decide),
   ( C10_theorem "hi" (mkRunState initialGlobal)
      (JsonVal.obj [("step", .str "analyze"), ("content", .str "c"),
        ("function", .str "valueOf"), ("args", .null)]) "valueOf"
      rfl (by decide) (by decide) (by decide) (by decide)).2 (by decide)⟩

example : normalizePath ".." = "." := by decide

example : normalizePath "chaicode/x" = "chaicode/chaicode/x" := by decide

example : normalizePath "a/b" = "chaicode/a/b" := by decide

example : normalizePath "/etc/passwd" = "chaicode/etc/passwd" := by decide

example : normalizePath "" = "chaicode" := by decide

example : normalizePath "chaicode/.." = "chaicode" := by decide

example : normalizePath "../../etc/passwd" = "../etc/passwd" := by decide

example : normalizePath "x/chaicode/y" = "chaicode/chaicode/y" := by decide

example : extractUpdateFile ("Found project " ++ apos ++ "todo-app" ++ apos
    ++ " in " ++ apos ++ "root" ++ apos ++ " with a style.css.")
    = some "todo-app/style.css" := by decide

example : extractedName ("I" ++ apos ++ "ll name it " ++ apos ++ "todo-app"
    ++ apos ++ ".") = some "todo-app" := by decide

example : cleanResponse "\x7b\"step\":\"bogus\"\x7d" = "\x7b\"step\":\"bogus\"\x7d" := by decide

example : cleanResponse "```json\n\x7b\"a\":1\x7d\n```" = "\x7b\"a\":1\x7d" := by decide

example : jsonParse "\x7b\"step\":\"bogus\",\"content\":\"x\"\x7d"
    = some (JsonVal.obj [("step", .str "bogus"), ("content", .str "x")]) := by rfl

example : jsonParse "[]" = some (JsonVal.arr []) := by rfl

example : jsonParse "\x7b\x7d" = some (JsonVal.obj []) := by rfl

example : jsonParse "not json" = none := by rfl

example : jsonStringify (JsonVal.obj [("step", .str "bogus")])
    = "\x7b\"step\":\"bogus\"\x7d" := by rfl

example :
    (runAgent initialGlobal
      { userMsg := "hi",
        replies := [some "\x7b\"step\":\"bogus\",\"content\":\"x\",\"function\":null,\"args\":null\x7d"],
        structureFetches := [], contentFetches := [], answers := [] }).2.2
      = RunOutcome.outOfReplies := by decide

example :
    (runAgent initialGlobal
      { userMsg := "hi", replies := [some "not json"],
        structureFetches := [], contentFetches := [], answers := [] }).2.2
      = RunOutcome.errorCaught := by decide

example :
    (runAgent initialGlobal rejectedNewProjectRun).2.2 = RunOutcome.rejected := by
  decide

example :
    (runAgent initialGlobal rejectedNewProjectRun).1.proposedStructure
      = ["chaicode/todo-app/index.html"] := by decide

end Cursor2


